import Mathlib

/-!
Verification development for the OpenAPI-driven dynamic API client
(packages/openapi_client/openapi_client.py and
packages/fastmcp_openapi_server/register_openapi_tools.py).

The Python data is JSON-compatible: dictionaries preserve insertion order,
so objects are modelled as ordered association lists.  Pure functions of the
source are translated one-to-one; the in-place `operationId` completion is
rendered both functionally (on document trees) and, for the frame property
about the caller's raw input, over an explicit heap of dictionary objects.
Places where the Python code would raise on malformed shapes are noted next
to the corresponding default branch; the theorems constrain the shapes by
hypothesis so those branches are never load-bearing.
-/

/-- JSON-compatible values as loaded from an OpenAPI document.  Python dicts
keep insertion order, hence objects are ordered association lists. -/
inductive Json where
  | null : Json
  | bool : Bool → Json
  | num : Int → Json
  | str : String → Json
  | arr : List Json → Json
  | obj : List (String × Json) → Json

/-- Test against a specific string (Python `value == "s"` for a JSON value:
only an equal string compares equal). -/
def Json.isStr : Json → String → Bool
  | .str s, t => s = t
  | _, _ => false

/-- Test for Python `None` (JSON null). -/
def Json.isNull : Json → Bool
  | .null => true
  | _ => false

/-- Lookup in an ordered association list (Python dict access by key). -/
def olookup {α : Type} : List (String × α) → String → Option α
  | [], _ => none
  | (k2, v) :: rest, k => if k2 = k then some v else olookup rest k

/-- Assignment in an ordered association list: Python dict assignment keeps
the position of an existing key and appends a new key at the end. -/
def oinsert {α : Type} : List (String × α) → String → α → List (String × α)
  | [], k, v => [(k, v)]
  | (k2, w) :: rest, k, v =>
      if k2 = k then (k2, v) :: rest else (k2, w) :: oinsert rest k v

/-- Fields of a JSON object; iterating a non-mapping raises in Python, the
theorems exclude that case by shape hypotheses. -/
def objFields : Json → List (String × Json)
  | .obj kvs => kvs
  | _ => []

/-- Python `d.get(k, default)` on a JSON object. -/
def jgetD (j : Json) (k : String) (d : Json) : Json :=
  (olookup (objFields j) k).getD d

/-- Python truthiness of a JSON-compatible value (used by `if request_body:`
and `json=body if body else None`). -/
def jsonTruthy : Json → Bool
  | .null => false
  | .bool b => b
  | .num n => decide (n ≠ 0)
  | .str s => decide (s ≠ "")
  | .arr xs => !xs.isEmpty
  | .obj kvs => !kvs.isEmpty

/-! Character classes of the regexes in the source (ASCII scope, which is the
scope of every character the claims exercise). -/

/-- Membership in the regex class `\w` = `[a-zA-Z0-9_]`. -/
def isWordChar (c : Char) : Bool :=
  ('a' ≤ c && c ≤ 'z') || ('A' ≤ c && c ≤ 'Z') || ('0' ≤ c && c ≤ '9') || c = '_'

/-- Membership in `[a-zA-Z0-9]` (alphanumeric, no underscore). -/
def isAlnumChar (c : Char) : Bool :=
  ('a' ≤ c && c ≤ 'z') || ('A' ≤ c && c ≤ 'Z') || ('0' ≤ c && c ≤ '9')

/-- Membership in `\d` restricted to ASCII. -/
def isDigitChar (c : Char) : Bool :=
  '0' ≤ c && c ≤ '9'

/-- Python `str.lower()` (ASCII scope). -/
def pyLower (s : String) : String :=
  ⟨s.data.map Char.toLower⟩

/-- Python `str.upper()` (ASCII scope). -/
def pyUpper (s : String) : String :=
  ⟨s.data.map Char.toUpper⟩

/-- Python `str.capitalize()`: first character uppercased, the remainder
lowercased. -/
def pyCapitalizeList : List Char → List Char
  | [] => []
  | c :: rest => Char.toUpper c :: rest.map Char.toLower

/-- Scan for the first `'}'` in the lazy span of `\{.*?\}`: `.` does not
match a newline, so a newline (or the end of input) means no match at the
current opening brace. -/
def splitAtCloseBrace : List Char → Option (List Char)
  | [] => none
  | c :: rest =>
      if c = '}' then some rest
      else if c = '\n' then none
      else splitAtCloseBrace rest

/-- Fuelled scanner for `re.sub(r'\{.*?\}', '', path)`: at each `'{'` the
lazy quantifier removes everything up to the first `'}'`; if no `'}'` occurs
before a newline or the end, the regex does not match at this position and
the brace is kept.  Every step consumes at least one character, so fuel
equal to the input length is always sufficient. -/
def rbsAux : Nat → List Char → List Char
  | 0, l => l
  | _ + 1, [] => []
  | fuel + 1, c :: rest =>
      if c = '{' then
        match splitAtCloseBrace rest with
        | some rem => rbsAux fuel rem
        | none => c :: rbsAux fuel rest
      else c :: rbsAux fuel rest

/-- Rendering of `re.sub(r'\{.*?\}', '', path)` on character lists. -/
def removeBraceSpansList (l : List Char) : List Char :=
  rbsAux l.length l

/-- Removal of trailing characters satisfying a predicate. -/
def dropTrailing (p : Char → Bool) (l : List Char) : List Char :=
  (l.reverse.dropWhile p).reverse

/-- Python `s.strip(c)` for a single strip character. -/
def pyStripChar (c : Char) (l : List Char) : List Char :=
  dropTrailing (fun d => d = c) (l.dropWhile (fun d => d = c))

/-- Python `s.split(sep)` for a one-character separator, generalized to a
predicate on the separator character.  Splitting the empty string yields the
one-element list containing the empty word, matching Python. -/
def splitOnPred (p : Char → Bool) : List Char → List (List Char)
  | [] => [[]]
  | c :: rest =>
      match splitOnPred p rest with
      | [] => [[]]
      | w :: ws => if p c then [] :: w :: ws else (c :: w) :: ws

/-- Test whether the first list begins the second (helper for substring
containment). -/
def beginsWith : List Char → List Char → Bool
  | [], _ => true
  | _ :: _, [] => false
  | a :: as, b :: bs => a = b && beginsWith as bs

/-- Substring containment: Python `needle in haystack` on strings. -/
def hasSub (needle : List Char) : List Char → Bool
  | [] => needle.isEmpty
  | c :: rest => beginsWith needle (c :: rest) || hasSub needle rest

/-! Embedding of `OpenAPIClient._sanitize_path` and
`OpenAPIClient._generate_operation_id` (openapi_client.py lines 202-216). -/

/-- Embedding of `_sanitize_path`: remove `{...}` spans, strip slashes at both ends,
replace `/` with `_`, then delete every character outside `[a-zA-Z0-9_]`. -/
def sanitize_path (path : String) : String :=
  ⟨((pyStripChar '/' (removeBraceSpansList path.data)).map
      (fun c => if c = '/' then '_' else c)).filter isWordChar⟩

/-- Embedding of `_generate_operation_id`: lowercase the method, sanitize the path, split
it on `_`, `str.capitalize` each word and concatenate. -/
def generate_operation_id (method path : String) : String :=
  ⟨(pyLower method).data ++
    ((splitOnPred (fun c => c = '_') (sanitize_path path).data).map
      pyCapitalizeList).flatten⟩

/-! Embedding of `sanitize_parameter_name` (register_openapi_tools.py lines
18-21): `re.sub(r'\W|^(?=\d)', '_', name)` replaces every non-word character
with `_` and, when the first character is a digit, the zero-width match of
the lookahead at position 0 inserts a leading `_` (the digit itself is
kept). -/

def sanitize_parameter_name (name : String) : String :=
  let mapped := name.data.map (fun c => if isWordChar c then c else '_')
  match name.data with
  | c :: _ => if isDigitChar c then ⟨'_' :: mapped⟩ else ⟨mapped⟩
  | [] => ""

/-! Embedding of the operation catalog (openapi_client.py lines 97-129). -/

/-- Dict entries produced by `get_operations` (type_definitions.py:
`OpenAPIOperation` with fields path, method, details). -/
structure OpenAPIOperation where
  path : String
  method : String
  details : Json

/-- Embedding of `get_operations`: one entry per (key, value) pair of every path item, in
document order.  Python indexes `self.spec['paths']` (KeyError when absent)
and iterates `path_item.items()` (raises on a non-mapping); the defaults of
`jgetD`/`objFields` stand in for those raising branches and the theorems add
the corresponding shape hypotheses. -/
def get_operations (spec : Json) : List OpenAPIOperation :=
  (objFields (jgetD spec "paths" (.obj []))).foldl
    (fun acc pv => acc ++ (objFields pv.2).map (fun mo => ⟨pv.1, mo.1, mo.2⟩)) []

/-- Loop condition of `get_operation_by_id`: the details value is a mapping
and its `operationId` compares equal to the requested id. -/
def opMatches (operation_id : String) (op : OpenAPIOperation) : Bool :=
  match op.details with
  | .obj kvs =>
      match olookup kvs "operationId" with
      | some v => v.isStr operation_id
      | none => false
  | _ => false

/-- Failure modes of operation lookup and request construction, named after
the error taxonomy of the specification.  `operationNotFound` is the
`ValueError` of line 129, `noServerDefined` covers the KeyError/IndexError of
`self.spec['servers'][0]`, `missingPathParameter` the KeyError of
`path.format`, `formatError` other `str.format` failures, and `shapeError`
the remaining TypeError/KeyError paths on malformed documents. -/
inductive InvokeErr where
  | operationNotFound : InvokeErr
  | noServerDefined : InvokeErr
  | missingPathParameter : String → InvokeErr
  | formatError : InvokeErr
  | shapeError : InvokeErr
deriving DecidableEq

/-- Embedding of `get_operation_by_id`: first enumerated operation whose details mapping
carries the requested id; otherwise the ValueError of line 129. -/
def get_operation_by_id (spec : Json) (operation_id : String) :
    Except InvokeErr OpenAPIOperation :=
  match (get_operations spec).find? (opMatches operation_id) with
  | some op => .ok op
  | none => .error .operationNotFound

/-! Embedding of `invoke_operation` (openapi_client.py lines 131-200) up to
the point where the HTTP request is handed to the transport: the method,
URL, query mapping, header mapping and optional JSON body passed to
`httpx.Client.request`. -/

mutual

/-- Python `repr(value)` for JSON-compatible values (the rendering `str`
applies to elements of containers). -/
def pyRepr : Json → String
  | .null => "None"
  | .bool true => "True"
  | .bool false => "False"
  | .num n => toString n
  | .str s => "'" ++ s ++ "'"
  | .arr xs => "[" ++ pyReprList xs ++ "]"
  | .obj kvs => "\x7b" ++ pyReprFields kvs ++ "\x7d"

def pyReprList : List Json → String
  | [] => ""
  | [x] => pyRepr x
  | x :: y :: rest => pyRepr x ++ ", " ++ pyReprList (y :: rest)

def pyReprFields : List (String × Json) → String
  | [] => ""
  | [(k, v)] => "'" ++ k ++ "': " ++ pyRepr v
  | (k, v) :: kv2 :: rest =>
      "'" ++ k ++ "': " ++ pyRepr v ++ ", " ++ pyReprFields (kv2 :: rest)

end

/-- Python `str(value)` as used by `path.format`: strings render bare, other
values via their repr. -/
def pyStr : Json → String
  | .str s => s
  | .null => "None"
  | .bool true => "True"
  | .bool false => "False"
  | .num n => toString n
  | .arr xs => pyRepr (.arr xs)
  | .obj kvs => pyRepr (.obj kvs)

/-- Scan of a format replacement field up to its closing brace; a nested
opening brace is the `ValueError` of `str.format`. -/
def fieldNameSplit : List Char → Option (List Char × List Char)
  | [] => none
  | c :: rest =>
      if c = '}' then some ([], rest)
      else if c = '{' then none
      else
        match fieldNameSplit rest with
        | some (nm, rem) => some (c :: nm, rem)
        | none => none

/-- Fuelled core of Python `path.format(**path_params)` restricted to plain
named fields: `{{`/`}}` escape to literal braces, `{name}` substitutes
`str(path_params[name])`, a missing name is the KeyError surfaced as
`missingPathParameter`, and malformed fields raise.  Each step consumes at
least one character, so fuel equal to the input length suffices. -/
def formatPathAux : Nat → List Char → List (String × Json) →
    Except InvokeErr (List Char)
  | 0, l, _ => .ok l
  | _ + 1, [], _ => .ok []
  | fuel + 1, c :: rest, pp =>
      if c = '{' then
        match rest with
        | '{' :: rest2 => (formatPathAux fuel rest2 pp).map (fun t => '{' :: t)
        | _ =>
          match fieldNameSplit rest with
          | some (nm, rem) =>
              if nm.isEmpty then .error .formatError
              else
                match olookup pp ⟨nm⟩ with
                | some v => (formatPathAux fuel rem pp).map (fun t => (pyStr v).data ++ t)
                | none => .error (.missingPathParameter ⟨nm⟩)
          | none => .error .formatError
      else if c = '}' then
        match rest with
        | '}' :: rest2 => (formatPathAux fuel rest2 pp).map (fun t => '}' :: t)
        | _ => .error .formatError
      else (formatPathAux fuel rest pp).map (fun t => c :: t)

/-- Python `path.format(**path_params)`. -/
def formatPath (l : List Char) (pp : List (String × Json)) :
    Except InvokeErr (List Char) :=
  formatPathAux l.length l pp

/-- Fuelled scanner for `re.sub(r'\{\?.*?\}', '', path)` (line 187): a span
opened by `{?` is removed up to the first `}` on the same line; otherwise the
character is kept and scanning resumes at the next position. -/
def sqeAux : Nat → List Char → List Char
  | 0, l => l
  | _ + 1, [] => []
  | fuel + 1, c :: rest =>
      if c = '{' then
        match rest with
        | '?' :: rest2 =>
            match splitAtCloseBrace rest2 with
            | some rem => sqeAux fuel rem
            | none => c :: sqeAux fuel rest
        | _ => c :: sqeAux fuel rest
      else c :: sqeAux fuel rest

/-- Removal of `{?...}` query-expansion fragments from a path template. -/
def stripQueryExpansion (l : List Char) : List Char :=
  sqeAux l.length l

/-- Argument buckets of `invoke_operation`: path, query, header and body
mappings accumulated from the provider defaults and the routed kwargs. -/
structure Buckets where
  pathB : List (String × Json)
  queryB : List (String × Json)
  headerB : List (String × Json)
  bodyB : List (String × Json)

/-- Routing of one declared parameter (lines 164-174): a non-null kwargs
value for the parameter's name goes into the bucket selected by its `in`
location; anything else contributes nothing.  A parameter object without
`name`/`in` string fields would raise in Python (KeyError); such documents
are excluded by shape hypotheses. -/
def routeParam (kwargs : List (String × Json)) (param : Json)
    (b : List (String × Json) × List (String × Json) × List (String × Json)) :
    List (String × Json) × List (String × Json) × List (String × Json) :=
  match param with
  | .obj pf =>
      match olookup pf "name", olookup pf "in" with
      | some (.str nm), some (.str loc) =>
          match olookup kwargs nm with
          | some v =>
              if v.isNull then b
              else if loc = "path" then (oinsert b.1 nm v, b.2.1, b.2.2)
              else if loc = "query" then (b.1, oinsert b.2.1 nm v, b.2.2)
              else if loc = "header" then (b.1, b.2.1, oinsert b.2.2 nm v)
              else b
          | none => b
      | _, _ => b
  | _ => b

/-- Fold of `routeParam` over the declared parameter list. -/
def routeParamsList (kwargs : List (String × Json)) :
    List Json →
    List (String × Json) × List (String × Json) × List (String × Json) →
    List (String × Json) × List (String × Json) × List (String × Json)
  | [], b => b
  | p :: rest, b => routeParamsList kwargs rest (routeParam kwargs p b)

/-- The declared parameter list: `operation["details"].get('parameters', [])`. -/
def paramsOf (details : Json) : List Json :=
  match jgetD details "parameters" (.arr []) with
  | .arr ps => ps
  | _ => []

/-- The requestBody JSON schema reached by
`details['requestBody']['content']['application/json']['schema']`; each hop
raises KeyError in Python when absent, which shape hypotheses exclude. -/
def requestBodySchema (rb : Json) : Json :=
  jgetD (jgetD (jgetD rb "content" (.obj [])) "application/json" (.obj []))
    "schema" (.obj [])

/-- Routing of requestBody properties (lines 176-181): executed only when
the details mapping has a `requestBody` key; iterates the schema's declared
property names and copies each non-null kwargs value into the body mapping
under the original property name. -/
def routeBody (kwargs : List (String × Json)) (details : Json)
    (body : List (String × Json)) : List (String × Json) :=
  match details with
  | .obj d =>
      match olookup d "requestBody" with
      | some rb =>
          (objFields (jgetD (requestBodySchema rb) "properties" (.obj []))).foldl
            (fun acc pr =>
              match olookup kwargs pr.1 with
              | some v => if v.isNull then acc else oinsert acc pr.1 v
              | none => acc)
            body
      | none => body
  | _ => body

/-- Declared requestBody property names of an operation (empty when the
operation declares no requestBody). -/
def bodyPropNames (details : Json) : List String :=
  match details with
  | .obj d =>
      match olookup d "requestBody" with
      | some rb =>
          (objFields (jgetD (requestBodySchema rb) "properties" (.obj []))).map
            (fun pr => pr.1)
      | none => []
  | _ => []

/-- Lines 157-181 of `invoke_operation`: bucket construction from the three
provider defaults (`get_query_params`, `get_headers`, `get_body`; the path
bucket starts empty) and the routed kwargs. -/
def buildBuckets (details : Json) (kwargs qp0 hp0 bp0 : List (String × Json)) :
    Buckets :=
  let b := routeParamsList kwargs (paramsOf details) ([], qp0, hp0)
  ⟨b.1, b.2.1, b.2.2, routeBody kwargs details bp0⟩

/-- The request handed to `httpx.Client.request` (lines 191-198): method
uppercased, assembled URL, query and header mappings, and the JSON body,
which is omitted (`json=None`) when the body mapping is empty. -/
structure RequestDescriptor where
  method : String
  url : String
  queryParams : List (String × Json)
  headers : List (String × Json)
  body : Option (List (String × Json))

/-- Line 184, `self.spec['servers'][0]['url']`: a missing `servers` key
(KeyError) or an empty list (IndexError) is the missing-server failure; a
malformed entry raises other errors. -/
def serverBaseUrl (spec : Json) : Except InvokeErr String :=
  match olookup (objFields spec) "servers" with
  | none => Except.error .noServerDefined
  | some (.arr []) => Except.error .noServerDefined
  | some (.arr (s :: _)) =>
      match olookup (objFields s) "url" with
      | some (.str u) => Except.ok u
      | some _ => Except.error .shapeError
      | none => Except.error .shapeError
  | some _ => Except.error .shapeError

/-- Embedding of `invoke_operation` up to the constructed HTTP request: operation lookup,
bucket routing, base-URL extraction, `{?...}` stripping, path-template
substitution, and descriptor assembly. -/
def invoke_operation (spec : Json) (headersP queryP bodyP : List (String × Json))
    (operation_id : String) (kwargs : List (String × Json)) :
    Except InvokeErr RequestDescriptor := do
  let op ← get_operation_by_id spec operation_id
  let b := buildBuckets op.details kwargs queryP headersP bodyP
  let baseUrl ← serverBaseUrl spec
  let sub ← formatPath (stripQueryExpansion op.path.data) b.pathB
  Except.ok
    ⟨pyUpper op.method, baseUrl ++ ⟨sub⟩, b.queryB, b.headerB,
      if b.bodyB.isEmpty then none else some b.bodyB⟩

/-! Embedding of the normalization steps of `OpenAPIClient.__init__`
(lines 54-61) and `_add_operation_ids` (lines 218-225).  Reference
resolution (`jsonref.replace_refs`) returns a structure of freshly built
containers and the claims quantify over already de-referenced documents, so
the value-level pipeline starts at the missing-id scan; the heap-level model
below additionally covers the fresh-copy step. -/

/-- Python errors raised by the normalization loops on malformed documents. -/
inductive PyErr where
  | keyError : PyErr
  | typeError : PyErr
deriving DecidableEq

/-- The expression `'operationId' not in operation`: key test on a mapping,
substring test on a string, element test on a list, TypeError otherwise. -/
def opIdMissing : Json → Except PyErr Bool
  | .obj kvs => .ok (olookup kvs "operationId").isNone
  | .str s => .ok (!hasSub "operationId".data s.data)
  | .arr xs => .ok (!xs.any (fun x => x.isStr "operationId"))
  | _ => .error .typeError

/-- Inner loop of the missing-id scan of `__init__` (lines 57-59), recording
`f"{method.upper()} {path}"` for each flagged entry. -/
def collectMissingItems (path : String) :
    List (String × Json) → Except PyErr (List String)
  | [] => .ok []
  | (method, opv) :: rest => do
      let b ← opIdMissing opv
      let tail ← collectMissingItems path rest
      if b then .ok ((pyUpper method ++ " " ++ path) :: tail) else .ok tail

/-- Missing-id scan of `__init__`: iterates `self.spec['paths']` (KeyError
when absent, TypeError on non-mappings). -/
def collectMissing (spec : Json) : Except PyErr (List String) :=
  match spec with
  | .obj f =>
      match olookup f "paths" with
      | some (.obj ps) =>
          ps.foldr
            (fun pv acc => do
              match pv.2 with
              | .obj items => do
                  let here ← collectMissingItems pv.1 items
                  let rest ← acc
                  pure (here ++ rest)
              | _ => Except.error PyErr.typeError)
            (Except.ok [])
      | some _ => .error .typeError
      | none => .error .keyError
  | _ => .error .typeError

/-- Inner loop of `_add_operation_ids` (lines 221-224): a mapping without an
`operationId` key gains one, appended at the end as Python dict assignment
does; assigning into a string or list raises TypeError. -/
def addIdsItem (path : String) :
    List (String × Json) → Except PyErr (List (String × Json))
  | [] => .ok []
  | (method, opv) :: rest => do
      let b ← opIdMissing opv
      let opv2 ←
        if b then
          match opv with
          | .obj kvs =>
              Except.ok (Json.obj
                (kvs ++ [("operationId", .str (generate_operation_id method path))]))
          | _ => Except.error PyErr.typeError
        else Except.ok opv
      let rest2 ← addIdsItem path rest
      .ok ((method, opv2) :: rest2)

/-- Outer loop of `_add_operation_ids` over `openapi_spec.get('paths', {})`. -/
def addIdsPaths : List (String × Json) → Except PyErr (List (String × Json))
  | [] => .ok []
  | (p, pi) :: rest => do
      let pi2 ←
        match pi with
        | .obj items => do
            let it2 ← addIdsItem p items
            pure (Json.obj it2)
        | _ => Except.error PyErr.typeError
      let rest2 ← addIdsPaths rest
      .ok ((p, pi2) :: rest2)

/-- Embedding of `_add_operation_ids`, rendered functionally: the in-place completion
replaces the operation mappings inside the same document structure. -/
def add_operation_ids (spec : Json) : Except PyErr Json :=
  match spec with
  | .obj f =>
      match olookup f "paths" with
      | some (.obj ps) => do
          let ps2 ← addIdsPaths ps
          .ok (.obj (oinsert f "paths" (.obj ps2)))
      | some _ => .error .typeError
      | none => .ok spec
  | _ => .error .typeError

/-- Steps of `__init__` after validation: scan for missing operation ids and
run the completion only when at least one is missing (lines 54-61). -/
def normalizeSpec (spec : Json) : Except PyErr Json := do
  let missing ← collectMissing spec
  if missing.isEmpty then .ok spec else add_operation_ids spec

/-! Embedding of the signature synthesis of `register_openapi_tools`
(register_openapi_tools.py lines 46-116).  Only the parts that shape the
synthesized signature are modelled: parameter names (sanitized), inferred
Python types, and required/optional placement; the docstring assembly does
not influence the signature. -/

/-- Python types produced by `OPENAPI_TO_PYTHON` and the enum-to-Literal
mapping of `get_python_type`. -/
inductive PyType where
  | pyStr : PyType
  | pyInt : PyType
  | pyBool : PyType
  | pyFloat : PyType
  | pyList : PyType
  | pyDict : PyType
  | literal : List Json → PyType

/-- Embedding of `get_python_type`: a present `enum` key becomes a Literal of its values;
otherwise the `type` string is mapped through `OPENAPI_TO_PYTHON` with `str`
as the fallback for unknown or missing types.  A non-list `enum` value or a
non-mapping schema raises in Python; those branches default and are excluded
by shape hypotheses where they matter. -/
def getPythonType (schema : Json) : PyType :=
  match schema with
  | .obj kvs =>
      match olookup kvs "enum" with
      | some (.arr vs) => .literal vs
      | some _ => .literal []
      | none =>
          match olookup kvs "type" with
          | some (.str t) =>
              if t = "string" then .pyStr
              else if t = "integer" then .pyInt
              else if t = "boolean" then .pyBool
              else if t = "number" then .pyFloat
              else if t = "array" then .pyList
              else if t = "object" then .pyDict
              else .pyStr
          | some _ => .pyStr
          | none => .pyStr
  | _ => .pyStr

/-- One entry of the synthesized signature: the sanitized argument name, its
inferred type, and whether it was placed in the optional group (carrying a
`None` default). -/
structure ParamDef where
  name : String
  ty : PyType
  optional : Bool

/-- The `required` flag of a declared parameter:
`param.get("required", False)` evaluated for truthiness. -/
def paramRequired (p : Json) : Bool :=
  jsonTruthy (jgetD p "required" (.bool false))

/-- Declared name of a parameter object (`param["name"]`); the default is
never load-bearing because theorems require a string name by hypothesis. -/
def pName (p : Json) : String :=
  match olookup (objFields p) "name" with
  | some (.str s) => s
  | _ => ""

/-- Declared location of a parameter object (`param['in']`). -/
def pLoc (p : Json) : String :=
  match olookup (objFields p) "in" with
  | some (.str s) => s
  | _ => ""

/-- Shape check: the parameter object carries a string `name` (what
`sanitize_parameter_name(param["name"])` needs to run without raising). -/
def paramNamed (p : Json) : Bool :=
  match olookup (objFields p) "name" with
  | some (.str _) => true
  | _ => false

/-- Shape check: the parameter object carries string `name` and `in` fields
(what the routing of `invoke_operation` needs to run without raising). -/
def paramShaped (p : Json) : Bool :=
  match olookup (objFields p) "name", olookup (objFields p) "in" with
  | some (.str _), some (.str _) => true
  | _, _ => false

/-- Loop of lines 62-84: each declared parameter is appended to the required
or the optional accumulator, preserving declaration order inside each. -/
def synthParams : List Json → List ParamDef × List ParamDef
  | [] => ([], [])
  | p :: rest =>
      let r := synthParams rest
      match olookup (objFields p) "name" with
      | some (.str nm) =>
          let d : ParamDef :=
            ⟨sanitize_parameter_name nm,
             getPythonType (jgetD p "schema" (.obj [])),
             !paramRequired p⟩
          if paramRequired p then (d :: r.1, r.2) else (r.1, d :: r.2)
      | _ => r

/-- Membership test of line 107, `prop_name in required_fields`: the Python
`in` compares the (sanitized) name against each element, matching only equal
strings. -/
def bodyPropRequired (requiredFields : List Json) (nm : String) : Bool :=
  requiredFields.any (fun e => e.isStr nm)

/-- Loop of lines 91-110 over the requestBody schema properties: placement
is decided by membership of the sanitized property name in the schema's
`required` list. -/
def synthBodyProps (requiredFields : List Json) :
    List (String × Json) → List ParamDef × List ParamDef
  | [] => ([], [])
  | (pn, pd) :: rest =>
      let r := synthBodyProps requiredFields rest
      let nm := sanitize_parameter_name pn
      let d : ParamDef :=
        ⟨nm, getPythonType pd, !bodyPropRequired requiredFields nm⟩
      if bodyPropRequired requiredFields nm then (d :: r.1, r.2)
      else (r.1, d :: r.2)

/-- The schema's `required` list, `schema.get("required", [])`; a non-list
value would change the Python `in` into a substring test and is excluded by
hypotheses where it matters. -/
def reqFieldsOf (schema : Json) : List Json :=
  match jgetD schema "required" (.arr []) with
  | .arr xs => xs
  | _ => []

/-- Lines 52-113: the full synthesized signature, required parameters first
(path/query/header parameters, then body properties), then the optional
group in the same relative order. -/
def synthSignature (details : Json) : List ParamDef :=
  let pr := synthParams (paramsOf details)
  let rb := jgetD details "requestBody" (.obj [])
  let br :=
    if jsonTruthy rb then
      let schema := requestBodySchema rb
      synthBodyProps (reqFieldsOf schema)
        (objFields (jgetD schema "properties" (.obj [])))
    else ([], [])
  (pr.1 ++ br.1) ++ (pr.2 ++ br.2)

/-! Specification-side renderings used to compare the code against the
claimed behaviour. -/

/-- The requestBody properties the signature synthesis iterates (empty when
the operation's `requestBody` is absent or falsy). -/
def specBodyProps (details : Json) : List (String × Json) :=
  let rb := jgetD details "requestBody" (.obj [])
  if jsonTruthy rb then
    objFields (jgetD (requestBodySchema rb) "properties" (.obj []))
  else []

/-- The schema's `required` list as seen by the signature synthesis. -/
def specReqFields (details : Json) : List Json :=
  reqFieldsOf (requestBodySchema (jgetD details "requestBody" (.obj [])))

/-- Signature entry a declared parameter contributes. -/
def specParamDef (p : Json) (opt : Bool) : ParamDef :=
  ⟨sanitize_parameter_name (pName p), getPythonType (jgetD p "schema" (.obj [])), opt⟩

/-- Signature entry a requestBody property contributes. -/
def specBodyDef (pr : String × Json) (opt : Bool) : ParamDef :=
  ⟨sanitize_parameter_name pr.1, getPythonType pr.2, opt⟩

/-- Rendering of the amended ordering claim: the required group lists the
required declared parameters in declaration order and then the requestBody
properties whose sanitized name is in the schema's `required` list, in
schema order; the optional group lists the remaining parameters and
properties in the same relative order; the groups are concatenated with the
required group first. -/
def specSignature (details : Json) : List ParamDef :=
  (((paramsOf details).filter paramRequired).map (fun p => specParamDef p false)
    ++ ((specBodyProps details).filter
        (fun pr => bodyPropRequired (specReqFields details)
          (sanitize_parameter_name pr.1))).map (fun pr => specBodyDef pr false))
  ++ (((paramsOf details).filter (fun p => !paramRequired p)).map
        (fun p => specParamDef p true)
    ++ ((specBodyProps details).filter
        (fun pr => !bodyPropRequired (specReqFields details)
          (sanitize_parameter_name pr.1))).map (fun pr => specBodyDef pr true))

/-- First-letter capitalization (the literal reading of "each word
capitalized" in the claimed naming rule, which does not lowercase the rest
of the word). -/
def capFirst : List Char → List Char
  | [] => []
  | c :: rest => Char.toUpper c :: rest

/-- Rendering of the claimed naming rule, read as stated: split the path on
`/`, drop `{param}` segments, remove all non-alphanumeric characters from
the remaining words (which removes underscores), capitalize each word, join,
and prefix the lowercased method. -/
def claimOperationId (method path : String) : String :=
  let words := (splitOnPred (fun c => c = '/') path.data).filter
      (fun w => !(decide (w.head? = some '{') && decide (w.getLast? = some '}')))
  ⟨(pyLower method).data ++ (words.map (fun w => capFirst (w.filter isAlnumChar))).flatten⟩

/-- Words of the amended naming rule: remove every brace span, keep only
letters, digits, underscores and slashes, and split on both separators
(`/` and `_`). -/
def amendedPathWords (path : String) : List (List Char) :=
  splitOnPred (fun c => c = '/' || c = '_')
    ((removeBraceSpansList path.data).filter (fun c => isWordChar c || c = '/'))

/-- The amended naming rule: lowercased method, then the amended words each
passed through Python `capitalize` (first letter uppercased, remainder
lowercased) and concatenated. -/
def amendedOperationId (method path : String) : String :=
  ⟨(pyLower method).data ++ ((amendedPathWords path).map pyCapitalizeList).flatten⟩

/-! Shape checks for the amended normalization claim. -/

/-- Check on one path-item entry: the value is a mapping, the method key is
non-empty, and an already-present `operationId` is a non-empty string. -/
def goodOpEntry (mo : String × Json) : Bool :=
  match mo.2 with
  | .obj okvs =>
      decide (mo.1 ≠ "") &&
        (match olookup okvs "operationId" with
         | some (.str s) => decide (s ≠ "")
         | some _ => false
         | none => true)
  | _ => false

/-- Check on one paths entry: the path item is a mapping of good entries. -/
def goodPathItem (pv : String × Json) : Bool :=
  match pv.2 with
  | .obj items => items.all goodOpEntry
  | _ => false

/-! Heap model for the frame property of `__init__`: Python objects live on
a heap, `jsonref.replace_refs` rebuilds every visited container as a fresh
object (its recursion returns new dicts and lists at each level), and the
in-place completion of `_add_operation_ids` writes only through references
reached from the fresh copy.  Dictionaries are heap objects; scalars and
containers the client never mutates are immutable leaves.  The copy descends
a bounded number of levels (enough to cover the root, the paths table, the
path items and the operation objects — the only dictionaries ever written);
below that it shares, which is unobservable because no deeper object is
mutated. -/

/-- Heap values: an immutable leaf or a reference to a heap object. -/
inductive HVal where
  | leaf : Json → HVal
  | ref : Nat → HVal

/-- A dictionary object on the heap. -/
abbrev HObj := List (String × HVal)

/-- The heap: addresses bound to dictionary objects. -/
abbrev Heap := List (Nat × HObj)

/-- Address lookup. -/
def hlookup : Heap → Nat → Option HObj
  | [], _ => none
  | (a, o) :: rest, b => if a = b then some o else hlookup rest b

/-- In-place update of the object bound at an address. -/
def hupdate : Heap → Nat → HObj → Heap
  | [], _, _ => []
  | (a, o) :: rest, b, o2 =>
      if a = b then (a, o2) :: rest else (a, o) :: hupdate rest b o2

/-- Fresh-copy pass of `jsonref.replace_refs` over the fields of a
dictionary, threading the heap and an allocation counter: a referenced
dictionary is copied (up to the given depth) and re-bound at a fresh
address; leaves are shared, as Python shares immutable scalars.  At depth
zero remaining references are shared, which the development only uses below
the operation objects, where the client never writes. -/
def copyFields : Nat → Heap × Nat → HObj → (Heap × Nat) × HObj
  | _, s, [] => (s, [])
  | fuel, s, (k, .leaf j) :: rest =>
      let r := copyFields fuel s rest
      (r.1, (k, .leaf j) :: r.2)
  | 0, s, (k, .ref a) :: rest =>
      let r := copyFields 0 s rest
      (r.1, (k, .ref a) :: r.2)
  | fuel + 1, s, (k, .ref a) :: rest =>
      match hlookup s.1 a with
      | none =>
          let r := copyFields (fuel + 1) s rest
          (r.1, (k, .ref a) :: r.2)
      | some o =>
          let r1 := copyFields fuel s o
          let s2 : Heap × Nat := ((r1.1.2, r1.2) :: r1.1.1, r1.1.2 + 1)
          let r2 := copyFields (fuel + 1) s2 rest
          (r2.1, (k, .ref r1.1.2) :: r2.2)
termination_by fuel _ o => (fuel, o.length)

/-- Copy of the document root: `self.spec = jsonref.replace_refs(openapi_spec)`
rebinds a fresh root object whose fields are the copied fields of the
original root. -/
def copyRoot (s : Heap × Nat) (root : Nat) : (Heap × Nat) × HVal :=
  match hlookup s.1 root with
  | none => (s, .ref root)
  | some o =>
      let r := copyFields 3 s o
      (((r.1.2, r.2) :: r.1.1, r.1.2 + 1), .ref r.1.2)

/-- Missing-id test of `__init__` lines 55-59 for one path-item entry on the
heap (the well-shaped case: the entry references a dictionary). -/
def heapEntryMissing (h : Heap) (mo : String × HVal) : Bool :=
  match mo.2 with
  | .ref b =>
      match hlookup h b with
      | some ob => (olookup ob "operationId").isNone
      | none => false
  | .leaf _ => false

/-- Missing-id scan of `__init__` over the copied spec (read-only). -/
def heapAnyMissing (h : Heap) (rootv : HVal) : Bool :=
  match rootv with
  | .ref r =>
      match hlookup h r with
      | some ro =>
          match olookup ro "paths" with
          | some (.ref pa) =>
              match hlookup h pa with
              | some po =>
                  po.any (fun pv =>
                    match pv.2 with
                    | .ref a =>
                        match hlookup h a with
                        | some items => items.any (heapEntryMissing h)
                        | none => false
                    | .leaf _ => false)
              | none => false
          | _ => false
      | none => false
  | .leaf _ => false

/-- One step of `_add_operation_ids` lines 222-224: when the referenced
operation dictionary has no `operationId` key, append one (Python dict
assignment appends a new key at the end).  Non-mapping entries would raise
in Python and are excluded by the shape hypotheses. -/
def heapAddOpId (h : Heap) (path method : String) (w : HVal) : Heap :=
  match w with
  | .ref b =>
      match hlookup h b with
      | some ob =>
          if (olookup ob "operationId").isSome then h
          else
            hupdate h b
              (ob ++ [("operationId", .leaf (.str (generate_operation_id method path)))])
      | none => h
  | .leaf _ => h

/-- Inner loop of `_add_operation_ids` over one path item's entries. -/
def heapAddOpIdsItems (path : String) : List (String × HVal) → Heap → Heap
  | [], h => h
  | (method, w) :: rest, h => heapAddOpIdsItems path rest (heapAddOpId h path method w)

/-- Outer loop of `_add_operation_ids` over the paths table. -/
def heapAddOpIdsPaths : List (String × HVal) → Heap → Heap
  | [], h => h
  | (path, w) :: rest, h =>
      heapAddOpIdsPaths rest
        (match w with
         | .ref a =>
             match hlookup h a with
             | some items => heapAddOpIdsItems path items h
             | none => h
         | .leaf _ => h)

/-- Embedding of `_add_operation_ids(self.spec)` on the heap: walk
`spec['paths'].items()` through the copied root. -/
def heapAddOperationIds (h : Heap) (rootv : HVal) : Heap :=
  match rootv with
  | .ref r =>
      match hlookup h r with
      | some ro =>
          match olookup ro "paths" with
          | some (.ref pa) =>
              match hlookup h pa with
              | some po => heapAddOpIdsPaths po h
              | none => h
          | _ => h
      | none => h
  | .leaf _ => h

/-- The `__init__` pipeline on the heap: fresh copy of the raw document,
then the in-place id completion, run only when the scan found a missing id
(lines 60-61).  Returns the final heap and the reference the client keeps
as `self.spec`. -/
def heapNormalize (h : Heap) (c : Nat) (root : Nat) : Heap × HVal :=
  let r := copyRoot (h, c) root
  (if heapAnyMissing r.1.1 r.2 then heapAddOperationIds r.1.1 r.2 else r.1.1, r.2)

/-- Read back the document value reachable from an address, to the given
depth (the caller's view of its raw input). -/
def readFields : Nat → Heap → HObj → List (String × Json)
  | _, _, [] => []
  | fuel, h, (k, .leaf j) :: rest => (k, j) :: readFields fuel h rest
  | 0, h, (k, .ref _) :: rest => (k, .null) :: readFields 0 h rest
  | fuel + 1, h, (k, .ref a) :: rest =>
      (match hlookup h a with
       | none => (k, .null)
       | some o => (k, .obj (readFields fuel h o))) :: readFields (fuel + 1) h rest
termination_by fuel _ o => (fuel, o.length)

/-- The document value rooted at an address, to the given depth. -/
def readRoot (h : Heap) (root : Nat) (fuel : Nat) : Json :=
  match hlookup h root with
  | none => .null
  | some o => .obj (readFields fuel h o)

/-- Closedness of the raw-document heap below the allocation counter: every
binding lives below `c` and refers only below `c`. -/
def heapClosedBelow (h : Heap) (c : Nat) : Bool :=
  h.all (fun ao =>
    decide (ao.1 < c) &&
      ao.2.all (fun kv =>
        match kv.2 with
        | .ref b => decide (b < c)
        | .leaf _ => true))

/-- Shape of one path-item entry: a reference to a present dictionary. -/
def opEntryShaped (h : Heap) (mo : String × HVal) : Bool :=
  match mo.2 with
  | .ref b => (hlookup h b).isSome
  | .leaf _ => false

/-- Shape of one paths entry: a reference to a present dictionary whose
entries are themselves references to present dictionaries. -/
def pathItemShaped (h : Heap) (pv : String × HVal) : Bool :=
  match pv.2 with
  | .ref a =>
      match hlookup h a with
      | some items => items.all (opEntryShaped h)
      | none => false
  | .leaf _ => false

/-- Shape of the raw document: a root dictionary whose `paths` field
references a dictionary of well-shaped path items (the shape on which the
normalization loops run without raising). -/
def wellShapedHeap (h : Heap) (root : Nat) : Bool :=
  match hlookup h root with
  | some ro =>
      match olookup ro "paths" with
      | some (.ref pa) =>
          match hlookup h pa with
          | some po => po.all (pathItemShaped h)
          | none => false
      | _ => false
  | none => false

/-- Fresh operation references of one copied path item: every entry points
into the fresh region, strictly below the item's own address. -/
def opsBelow (c a2 : Nat) (items2 : List (String × HVal)) : Prop :=
  ∀ mo2 ∈ items2, ∃ b2, mo2.2 = .ref b2 ∧ c ≤ b2 ∧ b2 < a2

/-- Allocation-ordered description of the copied paths table: each entry
references a fresh item dictionary whose operation references sit strictly
below the item's address, and later entries sit strictly above. -/
def itemChain (c : Nat) (hh : Heap) : Nat → Nat → List (String × HVal) → Prop
  | _, _, [] => True
  | floor, ceil, pv :: rest =>
      ∃ a2 items2, pv.2 = .ref a2 ∧ floor ≤ a2 ∧ a2 < ceil ∧
        hlookup hh a2 = some items2 ∧ opsBelow c a2 items2 ∧
        itemChain c hh (a2 + 1) ceil rest

/-! Concrete documents used by counterexamples and witnesses. -/

/-- A valid document with two operations, neither carrying an
`operationId`: `GET /users` and `GET /users/{id}` both sanitize to the
derived id `getUsers`. -/
def collisionDoc : Json :=
  .obj [("openapi", .str "3.0.0"),
        ("info", .obj [("title", .str "t"), ("version", .str "1.0")]),
        ("paths", .obj
          [("/users", .obj [("get", .obj
              [("responses", .obj [("200", .obj [("description", .str "ok")])])])]),
           ("/users/{id}", .obj [("get", .obj
              [("responses", .obj [("200", .obj [("description", .str "ok")])])])])])]

/-- The normalized form of `collisionDoc`: both operations received the same
synthesized id. -/
def collisionNorm : Json :=
  .obj [("openapi", .str "3.0.0"),
        ("info", .obj [("title", .str "t"), ("version", .str "1.0")]),
        ("paths", .obj
          [("/users", .obj [("get", .obj
              [("responses", .obj [("200", .obj [("description", .str "ok")])]),
               ("operationId", .str "getUsers")])]),
           ("/users/{id}", .obj [("get", .obj
              [("responses", .obj [("200", .obj [("description", .str "ok")])]),
               ("operationId", .str "getUsers")])])])]

/-- Operation details declaring one query parameter whose name needs
sanitization. -/
def c2Details : Json :=
  .obj [("operationId", .str "getThing"),
        ("parameters", .arr
          [.obj [("name", .str "2nd-value"), ("in", .str "query")]])]

/-- Operation details of the demonstration spec: a required path parameter
and an optional query parameter. -/
def demoDetails : Json :=
  .obj [("operationId", .str "getItem"),
        ("parameters", .arr
          [.obj [("name", .str "id"), ("in", .str "path"),
                 ("required", .bool true),
                 ("schema", .obj [("type", .str "integer")])],
           .obj [("name", .str "q"), ("in", .str "query"),
                 ("schema", .obj [("type", .str "string")])]])]

/-- A small valid spec with one server and one operation. -/
def demoSpec : Json :=
  .obj [("openapi", .str "3.0.0"),
        ("servers", .arr [.obj [("url", .str "http://api.example.com")]]),
        ("paths", .obj [("/items/{id}", .obj [("get", demoDetails)])])]

/-- A spec that declares no `servers` entry. -/
def noServerSpec : Json :=
  .obj [("openapi", .str "3.0.0"),
        ("paths", .obj [("/a", .obj [("get", .obj
          [("operationId", .str "opA")])])])]

/-- A spec whose path item carries a non-method `summary` key next to an
operation. -/
def mixedSpec : Json :=
  .obj [("paths", .obj
          [("/a", .obj [("summary", .str "path level"),
                        ("get", .obj [("operationId", .str "opA")])])])]

/-- Operation details mixing required/optional parameters with a
requestBody of one required and one optional property. -/
def c7Details : Json :=
  .obj [("parameters", .arr
          [.obj [("name", .str "id"), ("in", .str "path"),
                 ("required", .bool true),
                 ("schema", .obj [("type", .str "integer")])],
           .obj [("name", .str "q"), ("in", .str "query"),
                 ("schema", .obj [("type", .str "string")])]]),
        ("requestBody", .obj
          [("content", .obj
            [("application/json", .obj
              [("schema", .obj
                [("properties", .obj
                  [("name", .obj [("type", .str "string")]),
                   ("age", .obj [("type", .str "integer")])]),
                 ("required", .arr [.str "name"])])])])])]

/-- Operation details whose requestBody property name needs sanitization and
is listed verbatim in the schema's `required` list. -/
def c7BadDetails : Json :=
  .obj [("requestBody", .obj
          [("content", .obj
            [("application/json", .obj
              [("schema", .obj
                [("properties", .obj
                  [("a-b", .obj [("type", .str "string")])]),
                 ("required", .arr [.str "a-b"])])])])])]

/-- A raw document on the heap: root at 0, paths table at 1, one path item
at 2, one operation dictionary (missing its id) at 3. -/
def rawHeap : Heap :=
  [(0, [("openapi", .leaf (.str "3.0.0")), ("paths", .ref 1)]),
   (1, [("/users", .ref 2)]),
   (2, [("get", .ref 3)]),
   (3, [("responses", .leaf (.obj [("200", .str "ok")]))])]

/-- First enumerated operation of `collisionNorm`. -/
def collisionOp1 : OpenAPIOperation :=
  ⟨"/users", "get",
   .obj [("responses", .obj [("200", .obj [("description", .str "ok")])]),
         ("operationId", .str "getUsers")]⟩

/-- Second enumerated operation of `collisionNorm`. -/
def collisionOp2 : OpenAPIOperation :=
  ⟨"/users/{id}", "get",
   .obj [("responses", .obj [("200", .obj [("description", .str "ok")])]),
         ("operationId", .str "getUsers")]⟩

/-! General lemmas about ordered association lists and folds. -/

theorem olookup_oinsert_self {α : Type} (m : List (String × α)) (k : String) (v : α) :
    olookup (oinsert m k v) k = some v := by
  induction m with
  | nil => simp [oinsert, olookup]
  | cons kv rest ih =>
      by_cases h : kv.1 = k
      · simp [oinsert, olookup, h]
      · simp [oinsert, olookup, h, ih]

theorem olookup_oinsert_ne {α : Type} (m : List (String × α)) (k k2 : String) (v : α)
    (h : k ≠ k2) : olookup (oinsert m k v) k2 = olookup m k2 := by
  induction m with
  | nil => simp [oinsert, olookup, h]
  | cons kv rest ih =>
      by_cases h2 : kv.1 = k
      · simp [oinsert, olookup, h2, h]
      · simp [oinsert, olookup, h2, ih]

theorem olookup_append_of_none {α : Type} (m m2 : List (String × α)) (k : String)
    (h : olookup m k = none) : olookup (m ++ m2) k = olookup m2 k := by
  induction m with
  | nil => simp
  | cons kv rest ih =>
      by_cases h2 : kv.1 = k
      · simp [olookup, h2] at h
      · simp [olookup, h2] at h ⊢
        exact ih h

theorem foldl_append_bind {α β : Type} (l : List α) (g : α → List β) (acc : List β) :
    l.foldl (fun a x => a ++ g x) acc = acc ++ l.flatMap g := by
  induction l generalizing acc with
  | nil => simp
  | cons x xs ih => simp [List.foldl, ih]

theorem find?_append_first {α : Type} (p : α → Bool) (pre post : List α) (a : α)
    (hpre : ∀ o ∈ pre, p o = false) (ha : p a = true) :
    (pre ++ a :: post).find? p = some a := by
  induction pre with
  | nil => simp [List.find?, ha]
  | cons o rest ih =>
      have ho := hpre o (List.mem_cons_self o rest)
      simp only [List.cons_append, List.find?_cons, ho]
      exact ih (fun o2 h2 => hpre o2 (List.mem_cons_of_mem o h2))

/-- Enumeration equation for `get_operations` on a shaped document. -/
theorem get_operations_eq (spec : Json) (f ps : List (String × Json))
    (hspec : spec = Json.obj f) (hpaths : olookup f "paths" = some (Json.obj ps)) :
    get_operations spec
      = ps.flatMap (fun pv => (objFields pv.2).map
          (fun mo => ⟨pv.1, mo.1, mo.2⟩ : String × Json → OpenAPIOperation)) := by
  subst hspec
  simp [get_operations, jgetD, objFields, hpaths]
  exact foldl_append_bind ps _ []

/-- C10: `get_operations` returns one entry for each (key, value) pair of
each path item mapping, in document order, including keys that are not HTTP
methods; `get_operation_by_id` skips any enumerated entry whose details
value is not a mapping, so such entries are never returned by id lookup. -/
theorem c10_enumeration (spec : Json) (f ps : List (String × Json))
    (hspec : spec = Json.obj f) (hpaths : olookup f "paths" = some (Json.obj ps)) :
    get_operations spec
        = ps.flatMap (fun pv => (objFields pv.2).map
            (fun mo => (⟨pv.1, mo.1, mo.2⟩ : OpenAPIOperation))) ∧
      (∀ pv ∈ ps, ∀ mo ∈ objFields pv.2,
        (⟨pv.1, mo.1, mo.2⟩ : OpenAPIOperation) ∈ get_operations spec) ∧
      (∀ oid op, get_operation_by_id spec oid = .ok op →
        ∃ d, op.details = Json.obj d) := by
  have henum := get_operations_eq spec f ps hspec hpaths
  refine ⟨henum, ?_, ?_⟩
  · intro pv hpv mo hmo
    rw [henum]
    exact List.mem_flatMap.mpr ⟨pv, hpv, List.mem_map.mpr ⟨mo, hmo, rfl⟩⟩
  · intro oid op h
    unfold get_operation_by_id at h
    cases hf : (get_operations spec).find? (opMatches oid) with
    | none => rw [hf] at h; exact absurd h (by simp)
    | some op2 =>
        rw [hf] at h
        have hop2 : op2 = op := by
          injection h with h2
        subst hop2
        have hm := List.find?_some hf
        unfold opMatches at hm
        cases hd : op2.details with
        | obj d => exact ⟨d, rfl⟩
        | null => rw [hd] at hm; exact absurd hm (by simp)
        | bool b => rw [hd] at hm; exact absurd hm (by simp)
        | num n => rw [hd] at hm; exact absurd hm (by simp)
        | str s => rw [hd] at hm; exact absurd hm (by simp)
        | arr xs => rw [hd] at hm; exact absurd hm (by simp)

/-- Witness for C10 at a concrete document whose path item carries a
non-method `summary` key. -/
theorem c10_enumeration_witness :
    mixedSpec = Json.obj [("paths", Json.obj
        [("/a", Json.obj [("summary", Json.str "path level"),
                          ("get", Json.obj [("operationId", Json.str "opA")])])])] ∧
    olookup [("paths", Json.obj
        [("/a", Json.obj [("summary", Json.str "path level"),
                          ("get", Json.obj [("operationId", Json.str "opA")])])])] "paths"
      = some (Json.obj
        [("/a", Json.obj [("summary", Json.str "path level"),
                          ("get", Json.obj [("operationId", Json.str "opA")])])]) ∧
    (get_operations mixedSpec
        = [("/a", Json.obj [("summary", Json.str "path level"),
                            ("get", Json.obj [("operationId", Json.str "opA")])])].flatMap
            (fun pv => (objFields pv.2).map
              (fun mo => (⟨pv.1, mo.1, mo.2⟩ : OpenAPIOperation))) ∧
      (∀ pv ∈ [("/a", Json.obj [("summary", Json.str "path level"),
                                ("get", Json.obj [("operationId", Json.str "opA")])])],
        ∀ mo ∈ objFields pv.2,
          (⟨pv.1, mo.1, mo.2⟩ : OpenAPIOperation) ∈ get_operations mixedSpec) ∧
      (∀ oid op, get_operation_by_id mixedSpec oid = .ok op →
        ∃ d, op.details = Json.obj d)) :=
  ⟨rfl, rfl, c10_enumeration mixedSpec _ _ rfl rfl⟩

/-- C4 (amended): the round-trip holds for every enumerated operation whose
details mapping carries the requested id, provided no earlier enumerated
operation matches the same id — lookup returns the first match. -/
theorem c4_roundtrip (spec : Json) (oid : String)
    (pre post : List OpenAPIOperation) (op : OpenAPIOperation)
    (hsplit : get_operations spec = pre ++ op :: post)
    (hpre : ∀ o ∈ pre, opMatches oid o = false)
    (hop : opMatches oid op = true) :
    get_operation_by_id spec oid = .ok op := by
  unfold get_operation_by_id
  rw [hsplit, find?_append_first (opMatches oid) pre post op hpre hop]

/-- Witness for the amended C4 on the demonstration spec. -/
theorem c4_roundtrip_witness :
    get_operations demoSpec = [] ++ (⟨"/items/{id}", "get", demoDetails⟩ : OpenAPIOperation) :: [] ∧
    (∀ o ∈ ([] : List OpenAPIOperation), opMatches "getItem" o = false) ∧
    opMatches "getItem" ⟨"/items/{id}", "get", demoDetails⟩ = true ∧
    get_operation_by_id demoSpec "getItem" = .ok ⟨"/items/{id}", "get", demoDetails⟩ :=
  ⟨rfl, by intro o h; exact absurd h (by simp), rfl,
   c4_roundtrip demoSpec "getItem" [] [] ⟨"/items/{id}", "get", demoDetails⟩ rfl
     (by intro o h; exact absurd h (by simp)) rfl⟩

/-- C4 (counterexample): after normalizing `collisionDoc`, the enumeration
contains an operation carrying the id `getUsers` for which lookup by that id
returns a different operation (the first of two sharing the id), so the
round-trip fails as claimed. -/
theorem c4_counterexample :
    normalizeSpec collisionDoc = .ok collisionNorm ∧
    collisionOp2 ∈ get_operations collisionNorm ∧
    opMatches "getUsers" collisionOp2 = true ∧
    get_operation_by_id collisionNorm "getUsers" ≠ Except.ok collisionOp2 := by
  refine ⟨rfl, ?_, rfl, ?_⟩
  · have h : get_operations collisionNorm = [collisionOp1, collisionOp2] := rfl
    rw [h]
    exact List.mem_cons_of_mem _ (List.mem_cons_self _ _)
  · intro heq
    have h1 : get_operation_by_id collisionNorm "getUsers" = .ok collisionOp1 := rfl
    rw [h1] at heq
    have h2 : collisionOp1 = collisionOp2 := by injection heq
    have h3 := congrArg OpenAPIOperation.path h2
    simp [collisionOp1, collisionOp2] at h3

/-- C8: on a spec without a `servers` entry, invoking any existing operation
fails with the missing-server error before any request is constructed. -/
theorem c8_no_server (spec : Json) (f : List (String × Json))
    (headersP queryP bodyP kwargs : List (String × Json))
    (oid : String) (op : OpenAPIOperation)
    (hspec : spec = Json.obj f) (hserv : olookup f "servers" = none)
    (hop : get_operation_by_id spec oid = .ok op) :
    invoke_operation spec headersP queryP bodyP oid kwargs
      = .error .noServerDefined := by
  have hb : serverBaseUrl spec = .error .noServerDefined := by
    rw [hspec]
    simp [serverBaseUrl, objFields, hserv]
  unfold invoke_operation
  rw [hop, hb]
  simp [Bind.bind, Except.bind]

/-- Witness for C8 on the server-less spec. -/
theorem c8_no_server_witness :
    noServerSpec = Json.obj [("openapi", Json.str "3.0.0"),
      ("paths", Json.obj [("/a", Json.obj [("get", Json.obj
        [("operationId", Json.str "opA")])])])] ∧
    olookup [("openapi", Json.str "3.0.0"),
      ("paths", Json.obj [("/a", Json.obj [("get", Json.obj
        [("operationId", Json.str "opA")])])])] "servers" = none ∧
    get_operation_by_id noServerSpec "opA"
      = .ok ⟨"/a", "get", Json.obj [("operationId", Json.str "opA")]⟩ ∧
    invoke_operation noServerSpec [] [] [] "opA" []
      = .error .noServerDefined :=
  ⟨rfl, rfl, rfl,
   c8_no_server noServerSpec _ [] [] [] [] "opA"
     ⟨"/a", "get", Json.obj [("operationId", Json.str "opA")]⟩ rfl rfl rfl⟩

/-- C9: a successfully built request carries no JSON body exactly when the
routed body mapping is empty, and carries the routed body mapping as its
JSON body otherwise. -/
theorem c9_empty_body (spec : Json) (headersP queryP bodyP kwargs : List (String × Json))
    (oid : String) (op : OpenAPIOperation) (desc : RequestDescriptor)
    (hop : get_operation_by_id spec oid = .ok op)
    (hsucc : invoke_operation spec headersP queryP bodyP oid kwargs = .ok desc) :
    (desc.body = none ↔ (buildBuckets op.details kwargs queryP headersP bodyP).bodyB = []) ∧
    ((buildBuckets op.details kwargs queryP headersP bodyP).bodyB ≠ [] →
      desc.body = some (buildBuckets op.details kwargs queryP headersP bodyP).bodyB) := by
  unfold invoke_operation at hsucc
  rw [hop] at hsucc
  simp only [Bind.bind, Except.bind] at hsucc
  cases hb : serverBaseUrl spec with
  | error e => rw [hb] at hsucc; simp at hsucc
  | ok u =>
      rw [hb] at hsucc
      simp only at hsucc
      cases hfp : formatPath (stripQueryExpansion op.path.data)
          (buildBuckets op.details kwargs queryP headersP bodyP).pathB with
      | error e => rw [hfp] at hsucc; simp at hsucc
      | ok sub =>
          rw [hfp] at hsucc
          simp only at hsucc
          have hdesc :
              (⟨pyUpper op.method, u ++ ⟨sub⟩,
                (buildBuckets op.details kwargs queryP headersP bodyP).queryB,
                (buildBuckets op.details kwargs queryP headersP bodyP).headerB,
                if (buildBuckets op.details kwargs queryP headersP bodyP).bodyB.isEmpty
                then none
                else some (buildBuckets op.details kwargs queryP headersP bodyP).bodyB⟩
                : RequestDescriptor) = desc := by
            injection hsucc
          subst hdesc
          by_cases hbe :
              (buildBuckets op.details kwargs queryP headersP bodyP).bodyB.isEmpty
          · have hnil := List.isEmpty_iff.mp hbe
            simp [hbe, hnil]
          · have hnnil : (buildBuckets op.details kwargs queryP headersP bodyP).bodyB ≠ [] := by
              intro h0
              rw [h0] at hbe
              simp at hbe
            simp [hbe, hnnil]

/-- Witness for C9: the demonstration invocation succeeds with an empty
routed body mapping and its request carries no JSON payload. -/
theorem c9_empty_body_witness :
    get_operation_by_id demoSpec "getItem" = .ok ⟨"/items/{id}", "get", demoDetails⟩ ∧
    invoke_operation demoSpec [] [] [] "getItem" [("id", Json.str "42")]
      = .ok ⟨"GET", "http://api.example.com/items/42", [], [], none⟩ ∧
    (((⟨"GET", "http://api.example.com/items/42", [], [], none⟩ : RequestDescriptor).body = none
        ↔ (buildBuckets demoDetails [("id", Json.str "42")] [] [] []).bodyB = []) ∧
      ((buildBuckets demoDetails [("id", Json.str "42")] [] [] []).bodyB ≠ [] →
        (⟨"GET", "http://api.example.com/items/42", [], [], none⟩ : RequestDescriptor).body
          = some (buildBuckets demoDetails [("id", Json.str "42")] [] [] []).bodyB)) :=
  ⟨rfl, rfl,
   c9_empty_body demoSpec [] [] [] [("id", Json.str "42")] "getItem"
     ⟨"/items/{id}", "get", demoDetails⟩
     ⟨"GET", "http://api.example.com/items/42", [], [], none⟩ rfl rfl⟩

/-- C2 (code bug): `sanitize_parameter_name` maps `2nd-value` to
`_2nd_value` (prefixing the kept digit, not `_nd_value`), and a kwargs entry
under that sanitized key — the key the synthesized tool signature exposes —
is dropped by the request builder, which looks up the original name, whereas
the original name routes to the query bucket. -/
theorem c2_sanitized_name_dropped :
    sanitize_parameter_name "2nd-value" = "_2nd_value" ∧
    sanitize_parameter_name "2nd-value" ≠ "_nd_value" ∧
    (buildBuckets c2Details [("_2nd_value", Json.str "x")] [] [] []).queryB = [] ∧
    (buildBuckets c2Details [("2nd-value", Json.str "x")] [] [] []).queryB
      = [("2nd-value", Json.str "x")] :=
  ⟨by decide, by decide, rfl, rfl⟩

/-! Routing lemmas for the argument classification of `invoke_operation`. -/

theorem routeParam_unshaped (kwargs : List (String × Json)) (p : Json)
    (b : List (String × Json) × List (String × Json) × List (String × Json))
    (hs : paramShaped p = false) : routeParam kwargs p b = b := by
  cases p with
  | obj pf =>
      unfold routeParam
      unfold paramShaped at hs
      cases hn : olookup pf "name" with
      | none => simp [objFields, hn] at hs ⊢
      | some nv =>
          cases nv with
          | str nm =>
              cases hi : olookup pf "in" with
              | none => simp [objFields, hn, hi] at hs ⊢
              | some iv =>
                  cases iv <;> simp [objFields, hn, hi] at hs ⊢
          | null => simp [objFields, hn]
          | bool b2 => simp [objFields, hn]
          | num n2 => simp [objFields, hn]
          | arr xs => simp [objFields, hn]
          | obj kvs => simp [objFields, hn]
  | null => rfl
  | bool b2 => rfl
  | num n2 => rfl
  | str s => rfl
  | arr xs => rfl

theorem routeParam_shaped (kwargs : List (String × Json)) (p : Json)
    (b : List (String × Json) × List (String × Json) × List (String × Json))
    (hs : paramShaped p = true) :
    routeParam kwargs p b =
      match olookup kwargs (pName p) with
      | some v =>
          if v.isNull then b
          else if pLoc p = "path" then (oinsert b.1 (pName p) v, b.2.1, b.2.2)
          else if pLoc p = "query" then (b.1, oinsert b.2.1 (pName p) v, b.2.2)
          else if pLoc p = "header" then (b.1, b.2.1, oinsert b.2.2 (pName p) v)
          else b
      | none => b := by
  cases p with
  | obj pf =>
      unfold paramShaped at hs
      cases hn : olookup pf "name" with
      | none => simp [objFields, hn] at hs
      | some nv =>
          cases nv with
          | str nm =>
              cases hi : olookup pf "in" with
              | none => simp [objFields, hn, hi] at hs
              | some iv =>
                  cases iv with
                  | str loc =>
                      simp [routeParam, pName, pLoc, objFields, hn, hi]
                  | null => simp [objFields, hn, hi] at hs
                  | bool b2 => simp [objFields, hn, hi] at hs
                  | num n2 => simp [objFields, hn, hi] at hs
                  | arr xs => simp [objFields, hn, hi] at hs
                  | obj kvs => simp [objFields, hn, hi] at hs
          | null => simp [objFields, hn] at hs
          | bool b2 => simp [objFields, hn] at hs
          | num n2 => simp [objFields, hn] at hs
          | arr xs => simp [objFields, hn] at hs
          | obj kvs => simp [objFields, hn] at hs
  | null => simp [paramShaped, objFields, olookup] at hs
  | bool b2 => simp [paramShaped, objFields, olookup] at hs
  | num n2 => simp [paramShaped, objFields, olookup] at hs
  | str s => simp [paramShaped, objFields, olookup] at hs
  | arr xs => simp [paramShaped, objFields, olookup] at hs

theorem routeParam_other (kwargs : List (String × Json)) (p : Json)
    (b : List (String × Json) × List (String × Json) × List (String × Json))
    (n : String) (hne : pName p ≠ n) :
    olookup (routeParam kwargs p b).1 n = olookup b.1 n ∧
    olookup (routeParam kwargs p b).2.1 n = olookup b.2.1 n ∧
    olookup (routeParam kwargs p b).2.2 n = olookup b.2.2 n := by
  cases hs : paramShaped p with
  | false => rw [routeParam_unshaped kwargs p b hs]; exact ⟨rfl, rfl, rfl⟩
  | true =>
      rw [routeParam_shaped kwargs p b hs]
      cases hk : olookup kwargs (pName p) with
      | none => exact ⟨rfl, rfl, rfl⟩
      | some v =>
          by_cases hv : v.isNull
          · simp [hv]
          · by_cases h1 : pLoc p = "path"
            · simp [hv, h1, olookup_oinsert_ne _ _ _ _ hne]
            · by_cases h2 : pLoc p = "query"
              · simp [hv, h1, h2, olookup_oinsert_ne _ _ _ _ hne]
              · by_cases h3 : pLoc p = "header"
                · simp [hv, h1, h2, h3, olookup_oinsert_ne _ _ _ _ hne]
                · simp [hv, h1, h2, h3]

theorem routeParamsList_other (kwargs : List (String × Json)) (ps : List Json)
    (n : String) (hps : ∀ q ∈ ps, pName q ≠ n) :
    ∀ b, olookup (routeParamsList kwargs ps b).1 n = olookup b.1 n ∧
      olookup (routeParamsList kwargs ps b).2.1 n = olookup b.2.1 n ∧
      olookup (routeParamsList kwargs ps b).2.2 n = olookup b.2.2 n := by
  induction ps with
  | nil => intro b; exact ⟨rfl, rfl, rfl⟩
  | cons q rest ih =>
      intro b
      have hq := hps q (List.mem_cons_self q rest)
      have hrest := fun q2 h2 => hps q2 (List.mem_cons_of_mem q h2)
      have h1 := routeParam_other kwargs q b n hq
      have h2 := ih hrest (routeParam kwargs q b)
      unfold routeParamsList
      exact ⟨h2.1.trans h1.1, h2.2.1.trans h1.2.1, h2.2.2.trans h1.2.2⟩

theorem routeParamsList_append (kwargs : List (String × Json)) (xs ys : List Json) :
    ∀ b, routeParamsList kwargs (xs ++ ys) b
      = routeParamsList kwargs ys (routeParamsList kwargs xs b) := by
  induction xs with
  | nil => intro b; rfl
  | cons x rest ih => intro b; simp [routeParamsList, ih]

theorem routeParamsList_nullmiss (kwargs : List (String × Json)) (n : String)
    (hk : olookup kwargs n = none ∨ olookup kwargs n = some Json.null)
    (ps : List Json) :
    ∀ b, olookup (routeParamsList kwargs ps b).1 n = olookup b.1 n ∧
      olookup (routeParamsList kwargs ps b).2.1 n = olookup b.2.1 n ∧
      olookup (routeParamsList kwargs ps b).2.2 n = olookup b.2.2 n := by
  induction ps with
  | nil => intro b; exact ⟨rfl, rfl, rfl⟩
  | cons q rest ih =>
      intro b
      have hstep : olookup (routeParam kwargs q b).1 n = olookup b.1 n ∧
          olookup (routeParam kwargs q b).2.1 n = olookup b.2.1 n ∧
          olookup (routeParam kwargs q b).2.2 n = olookup b.2.2 n := by
        by_cases hqn : pName q = n
        · cases hs : paramShaped q with
          | false => rw [routeParam_unshaped kwargs q b hs]; exact ⟨rfl, rfl, rfl⟩
          | true =>
              rw [routeParam_shaped kwargs q b hs, hqn]
              cases hk with
              | inl h0 => simp [h0]
              | inr h0 => simp [h0, Json.isNull]
        · exact routeParam_other kwargs q b n hqn
      have h2 := ih (routeParam kwargs q b)
      unfold routeParamsList
      exact ⟨h2.1.trans hstep.1, h2.2.1.trans hstep.2.1, h2.2.2.trans hstep.2.2⟩

theorem bodyFold_preserve (kwargs : List (String × Json)) (n : String)
    (hk : olookup kwargs n = none ∨ olookup kwargs n = some Json.null) :
    ∀ (props : List (String × Json)) (acc : List (String × Json)),
      olookup (props.foldl
        (fun acc2 pr =>
          match olookup kwargs pr.1 with
          | some v => if v.isNull then acc2 else oinsert acc2 pr.1 v
          | none => acc2) acc) n = olookup acc n := by
  intro props
  induction props with
  | nil => intro acc; rfl
  | cons pr rest ih =>
      intro acc
      rw [List.foldl_cons]
      refine (ih _).trans ?_
      by_cases hpn : pr.1 = n
      · rw [hpn]
        cases hk with
        | inl h0 => rw [h0]
        | inr h0 => rw [h0]; simp [Json.isNull]
      · cases hkp : olookup kwargs pr.1 with
        | none => rfl
        | some v =>
            by_cases hv : v.isNull = true
            · simp [hv]
            · simp only [hv, if_false]
              exact olookup_oinsert_ne _ _ _ _ hpn

theorem routeBody_preserve (kwargs : List (String × Json)) (details : Json)
    (body : List (String × Json)) (n : String)
    (hk : olookup kwargs n = none ∨ olookup kwargs n = some Json.null) :
    olookup (routeBody kwargs details body) n = olookup body n := by
  cases details with
  | obj d =>
      simp only [routeBody]
      cases hrb : olookup d "requestBody" with
      | none => rfl
      | some rb => exact bodyFold_preserve kwargs n hk _ body
  | null => rfl
  | bool b2 => rfl
  | num n2 => rfl
  | str s => rfl
  | arr xs => rfl

theorem bodyFold_congr (kwargs kwargs2 : List (String × Json)) :
    ∀ (props : List (String × Json)) (acc : List (String × Json)),
      (∀ pr ∈ props, olookup kwargs2 pr.1 = olookup kwargs pr.1) →
      props.foldl
        (fun acc2 pr =>
          match olookup kwargs2 pr.1 with
          | some v => if v.isNull then acc2 else oinsert acc2 pr.1 v
          | none => acc2) acc
        = props.foldl
            (fun acc2 pr =>
              match olookup kwargs pr.1 with
              | some v => if v.isNull then acc2 else oinsert acc2 pr.1 v
              | none => acc2) acc := by
  intro props
  induction props with
  | nil => intro acc h; rfl
  | cons pr rest ih =>
      intro acc h
      rw [List.foldl_cons, List.foldl_cons,
        h pr (List.mem_cons_self pr rest)]
      exact ih _ (fun pr2 h2 => h pr2 (List.mem_cons_of_mem pr h2))

theorem routeBody_congr (kwargs kwargs2 : List (String × Json)) (details : Json)
    (body : List (String × Json))
    (h : ∀ nm ∈ bodyPropNames details, olookup kwargs2 nm = olookup kwargs nm) :
    routeBody kwargs2 details body = routeBody kwargs details body := by
  cases details with
  | obj d =>
      simp only [routeBody]
      simp only [bodyPropNames] at h
      cases hrb : olookup d "requestBody" with
      | none => rfl
      | some rb =>
          rw [hrb] at h
          exact bodyFold_congr kwargs kwargs2 _ body
            (fun pr h2 => h pr.1 (List.mem_map_of_mem _ h2))
  | null => rfl
  | bool b2 => rfl
  | num n2 => rfl
  | str s => rfl
  | arr xs => rfl

theorem routeParamsList_congr (kwargs kwargs2 : List (String × Json)) :
    ∀ (ps : List Json),
      (∀ q ∈ ps, olookup kwargs2 (pName q) = olookup kwargs (pName q)) →
      ∀ b, routeParamsList kwargs2 ps b = routeParamsList kwargs ps b := by
  intro ps
  induction ps with
  | nil => intro h b; rfl
  | cons q rest ih =>
      intro h b
      have hstep : routeParam kwargs2 q b = routeParam kwargs q b := by
        cases hs : paramShaped q with
        | false => rw [routeParam_unshaped kwargs2 q b hs, routeParam_unshaped kwargs q b hs]
        | true =>
            rw [routeParam_shaped kwargs2 q b hs, routeParam_shaped kwargs q b hs,
              h q (List.mem_cons_self q rest)]
      unfold routeParamsList
      rw [hstep]
      exact ih (fun q2 h2 => h q2 (List.mem_cons_of_mem q h2)) _

theorem routeParam_writes (kwargs : List (String × Json)) (p : Json)
    (b : List (String × Json) × List (String × Json) × List (String × Json))
    (hs : paramShaped p = true) (v : Json)
    (hk : olookup kwargs (pName p) = some v) (hv : v.isNull = false) :
    (pLoc p = "path" → olookup (routeParam kwargs p b).1 (pName p) = some v) ∧
    (pLoc p = "query" → olookup (routeParam kwargs p b).2.1 (pName p) = some v) ∧
    (pLoc p = "header" → olookup (routeParam kwargs p b).2.2 (pName p) = some v) := by
  rw [routeParam_shaped kwargs p b hs, hk]
  refine ⟨?_, ?_, ?_⟩
  · intro hloc
    simp [hv, hloc, olookup_oinsert_self]
  · intro hloc
    simp [hv, hloc, olookup_oinsert_self]
  · intro hloc
    simp [hv, hloc, olookup_oinsert_self]

/-- C5: each declared parameter with a non-null kwargs value is routed to
the bucket named by its declared location; a declared parameter absent from
kwargs or bound to null contributes nothing to any bucket beyond the
provider defaults; and the buckets depend on kwargs only through the
declared parameter and body-property names, so an undeclared kwargs entry is
silently ignored. -/
theorem c5_argument_classification (details : Json)
    (kwargs qp0 hp0 bp0 : List (String × Json))
    (hshape : (paramsOf details).all paramShaped = true)
    (hnodup : ((paramsOf details).map pName).Nodup) :
    (∀ p ∈ paramsOf details, ∀ v, olookup kwargs (pName p) = some v →
      v.isNull = false →
      (pLoc p = "path" →
        olookup (buildBuckets details kwargs qp0 hp0 bp0).pathB (pName p) = some v) ∧
      (pLoc p = "query" →
        olookup (buildBuckets details kwargs qp0 hp0 bp0).queryB (pName p) = some v) ∧
      (pLoc p = "header" →
        olookup (buildBuckets details kwargs qp0 hp0 bp0).headerB (pName p) = some v)) ∧
    (∀ p ∈ paramsOf details,
      (olookup kwargs (pName p) = none ∨ olookup kwargs (pName p) = some Json.null) →
      olookup (buildBuckets details kwargs qp0 hp0 bp0).pathB (pName p) = none ∧
      olookup (buildBuckets details kwargs qp0 hp0 bp0).queryB (pName p)
        = olookup qp0 (pName p) ∧
      olookup (buildBuckets details kwargs qp0 hp0 bp0).headerB (pName p)
        = olookup hp0 (pName p) ∧
      olookup (buildBuckets details kwargs qp0 hp0 bp0).bodyB (pName p)
        = olookup bp0 (pName p)) ∧
    (∀ kwargs2,
      (∀ p ∈ paramsOf details, olookup kwargs2 (pName p) = olookup kwargs (pName p)) →
      (∀ nm ∈ bodyPropNames details, olookup kwargs2 nm = olookup kwargs nm) →
      buildBuckets details kwargs2 qp0 hp0 bp0
        = buildBuckets details kwargs qp0 hp0 bp0) := by
  refine ⟨?_, ?_, ?_⟩
  · intro p hp v hk hv
    obtain ⟨pre, post, hsplit⟩ := List.append_of_mem hp
    have hps : paramShaped p = true := List.all_eq_true.mp hshape p hp
    have hpost : ∀ q ∈ post, pName q ≠ pName p := by
      have h1 : ((pre ++ p :: post).map pName).Nodup := hsplit ▸ hnodup
      rw [List.map_append, List.map_cons] at h1
      have h2 := h1.of_append_right
      have h3 := (List.nodup_cons.mp h2).1
      intro q hq heq
      exact h3 (heq ▸ List.mem_map_of_mem pName hq)
    have hpathc : (buildBuckets details kwargs qp0 hp0 bp0).pathB
        = (routeParamsList kwargs post
            (routeParam kwargs p (routeParamsList kwargs pre ([], qp0, hp0)))).1 := by
      simp only [buildBuckets]
      rw [hsplit, routeParamsList_append]
      rfl
    have hqueryc : (buildBuckets details kwargs qp0 hp0 bp0).queryB
        = (routeParamsList kwargs post
            (routeParam kwargs p (routeParamsList kwargs pre ([], qp0, hp0)))).2.1 := by
      simp only [buildBuckets]
      rw [hsplit, routeParamsList_append]
      rfl
    have hheadc : (buildBuckets details kwargs qp0 hp0 bp0).headerB
        = (routeParamsList kwargs post
            (routeParam kwargs p (routeParamsList kwargs pre ([], qp0, hp0)))).2.2 := by
      simp only [buildBuckets]
      rw [hsplit, routeParamsList_append]
      rfl
    have hother := routeParamsList_other kwargs post (pName p) hpost
      (routeParam kwargs p (routeParamsList kwargs pre ([], qp0, hp0)))
    have hw := routeParam_writes kwargs p
      (routeParamsList kwargs pre ([], qp0, hp0)) hps v hk hv
    exact ⟨fun hloc => by rw [hpathc, hother.1]; exact hw.1 hloc,
           fun hloc => by rw [hqueryc, hother.2.1]; exact hw.2.1 hloc,
           fun hloc => by rw [hheadc, hother.2.2]; exact hw.2.2 hloc⟩
  · intro p hp hmiss
    have h1 := routeParamsList_nullmiss kwargs (pName p) hmiss (paramsOf details)
      ([], qp0, hp0)
    have h2 := routeBody_preserve kwargs details bp0 (pName p) hmiss
    exact ⟨h1.1, h1.2.1, h1.2.2, h2⟩
  · intro kwargs2 hparams hbody
    have h1 := routeParamsList_congr kwargs kwargs2 (paramsOf details) hparams
      ([], qp0, hp0)
    have h2 := routeBody_congr kwargs kwargs2 details bp0 hbody
    simp only [buildBuckets]
    rw [h1, h2]

/-- Witness for C5 on the demonstration operation: `id` routes to the path
bucket, `q` is absent and contributes nothing, and extra kwargs entries are
ignored. -/
theorem c5_argument_classification_witness :
    (paramsOf demoDetails).all paramShaped = true ∧
    ((paramsOf demoDetails).map pName).Nodup ∧
    ((∀ p ∈ paramsOf demoDetails, ∀ v,
        olookup [("id", Json.str "42")] (pName p) = some v → v.isNull = false →
        (pLoc p = "path" →
          olookup (buildBuckets demoDetails [("id", Json.str "42")] [] [] []).pathB
            (pName p) = some v) ∧
        (pLoc p = "query" →
          olookup (buildBuckets demoDetails [("id", Json.str "42")] [] [] []).queryB
            (pName p) = some v) ∧
        (pLoc p = "header" →
          olookup (buildBuckets demoDetails [("id", Json.str "42")] [] [] []).headerB
            (pName p) = some v)) ∧
      (∀ p ∈ paramsOf demoDetails,
        (olookup [("id", Json.str "42")] (pName p) = none ∨
          olookup [("id", Json.str "42")] (pName p) = some Json.null) →
        olookup (buildBuckets demoDetails [("id", Json.str "42")] [] [] []).pathB
          (pName p) = none ∧
        olookup (buildBuckets demoDetails [("id", Json.str "42")] [] [] []).queryB
          (pName p) = olookup [] (pName p) ∧
        olookup (buildBuckets demoDetails [("id", Json.str "42")] [] [] []).headerB
          (pName p) = olookup [] (pName p) ∧
        olookup (buildBuckets demoDetails [("id", Json.str "42")] [] [] []).bodyB
          (pName p) = olookup [] (pName p)) ∧
      (∀ kwargs2,
        (∀ p ∈ paramsOf demoDetails,
          olookup kwargs2 (pName p) = olookup [("id", Json.str "42")] (pName p)) →
        (∀ nm ∈ bodyPropNames demoDetails,
          olookup kwargs2 nm = olookup [("id", Json.str "42")] nm) →
        buildBuckets demoDetails kwargs2 [] [] []
          = buildBuckets demoDetails [("id", Json.str "42")] [] [] [])) :=
  ⟨by decide, by decide,
   c5_argument_classification demoDetails [("id", Json.str "42")] [] [] []
     (by decide) (by decide)⟩

/-! Decomposition of the signature synthesis into its required and optional
groups. -/

theorem synthParams_eq :
    ∀ ps : List Json, ps.all paramNamed = true →
      synthParams ps
        = ((ps.filter paramRequired).map (fun p => specParamDef p false),
           (ps.filter (fun p => !paramRequired p)).map (fun p => specParamDef p true)) := by
  intro ps
  induction ps with
  | nil => intro h; rfl
  | cons p rest ih =>
      intro h
      rw [List.all_cons, Bool.and_eq_true] at h
      have hp : paramNamed p = true := h.1
      have hrest := h.2
      unfold paramNamed at hp
      unfold synthParams
      rw [ih hrest]
      cases hn : olookup (objFields p) "name" with
      | none => rw [hn] at hp; simp at hp
      | some nv =>
          cases nv with
          | str nm =>
              have hpn : pName p = nm := by simp [pName, hn]
              by_cases hr : paramRequired p
              · simp [hr, List.filter_cons, specParamDef, hpn]
              · simp [hr, List.filter_cons, specParamDef, hpn]
          | null => rw [hn] at hp; simp at hp
          | bool b2 => rw [hn] at hp; simp at hp
          | num n2 => rw [hn] at hp; simp at hp
          | arr xs => rw [hn] at hp; simp at hp
          | obj kvs => rw [hn] at hp; simp at hp

theorem synthBodyProps_eq (rf : List Json) :
    ∀ props : List (String × Json),
      synthBodyProps rf props
        = ((props.filter
              (fun pr => bodyPropRequired rf (sanitize_parameter_name pr.1))).map
            (fun pr => specBodyDef pr false),
           (props.filter
              (fun pr => !bodyPropRequired rf (sanitize_parameter_name pr.1))).map
            (fun pr => specBodyDef pr true)) := by
  intro props
  induction props with
  | nil => rfl
  | cons pr rest ih =>
      obtain ⟨pn, pd⟩ := pr
      unfold synthBodyProps
      rw [ih]
      by_cases hr : bodyPropRequired rf (sanitize_parameter_name pn)
      · simp [hr, List.filter_cons, specBodyDef]
      · simp [hr, List.filter_cons, specBodyDef]

/-- C7 (amended): the synthesized signature equals the specification-side
rendering — all required entries precede all optional entries, with declared
parameters before requestBody properties inside each group and declaration
order preserved; a requestBody property lands in the required group exactly
when its sanitized name is a member of the schema's `required` list, so a
property whose original name needs sanitization is always optional. -/
theorem c7_signature_order (details : Json)
    (hnamed : (paramsOf details).all paramNamed = true) :
    synthSignature details = specSignature details := by
  simp only [synthSignature, specSignature, specBodyProps, specReqFields]
  rw [synthParams_eq (paramsOf details) hnamed]
  by_cases ht : jsonTruthy (jgetD details "requestBody" (.obj []))
  · simp [ht, synthBodyProps_eq]
  · simp [ht]

/-- Witness for the amended C7 on an operation mixing required and optional
parameters with a requestBody of one required and one optional property. -/
theorem c7_signature_order_witness :
    (paramsOf c7Details).all paramNamed = true ∧
    synthSignature c7Details = specSignature c7Details :=
  ⟨by decide, c7_signature_order c7Details (by decide)⟩

/-- C7 (counterexample): in `c7BadDetails` the property name `a-b` is a
member of the schema's `required` list, yet the synthesized signature places
its entry in the optional group, because the membership test of line 107
uses the sanitized name `a_b`. -/
theorem c7_counterexample :
    reqFieldsOf (requestBodySchema (jgetD c7BadDetails "requestBody" (.obj [])))
      = [Json.str "a-b"] ∧
    specBodyProps c7BadDetails = [("a-b", Json.obj [("type", Json.str "string")])] ∧
    synthSignature c7BadDetails = [⟨"a_b", PyType.pyStr, true⟩] :=
  ⟨rfl, rfl, rfl⟩

/-- A synthesized id starts with the lowercased method, so it is non-empty
whenever the method key is. -/
theorem generate_operation_id_ne_empty (method path : String) (h : method ≠ "") :
    generate_operation_id method path ≠ "" := by
  intro h0
  have h1 := congrArg String.data h0
  simp only [generate_operation_id] at h1
  rw [List.append_eq_nil] at h1
  have h2 : method.data = [] := by
    have := h1.1
    simp only [pyLower] at this
    exact List.map_eq_nil_iff.mp this
  apply h
  cases method with
  | mk l => cases h2; rfl

theorem addIdsItem_good (p : String) :
    ∀ items : List (String × Json), items.all goodOpEntry = true →
      ∃ items2, addIdsItem p items = .ok items2 ∧
        ∀ mo2 ∈ items2, ∃ d s, mo2.2 = Json.obj d ∧
          olookup d "operationId" = some (Json.str s) ∧ s ≠ "" := by
  intro items
  induction items with
  | nil =>
      intro h
      exact ⟨[], rfl, by intro mo2 h2; exact absurd h2 (by simp)⟩
  | cons mo rest ih =>
      intro h
      rw [List.all_cons, Bool.and_eq_true] at h
      obtain ⟨items2r, hr, hgr⟩ := ih h.2
      obtain ⟨method, opv⟩ := mo
      have hgood := h.1
      unfold goodOpEntry at hgood
      cases opv with
      | obj okvs =>
          simp only [Bool.and_eq_true, decide_eq_true_eq] at hgood
          cases hid : olookup okvs "operationId" with
          | none =>
              refine ⟨(method, Json.obj (okvs ++ [("operationId",
                  Json.str (generate_operation_id method p))])) :: items2r, ?_, ?_⟩
              · simp only [addIdsItem, Bind.bind, Except.bind, opIdMissing, hid,
                  Option.isNone_none, if_true]
                rw [hr]
              · intro mo2 h2
                cases h2 with
                | head =>
                    refine ⟨okvs ++ [("operationId",
                      Json.str (generate_operation_id method p))],
                      generate_operation_id method p, rfl, ?_, ?_⟩
                    · rw [olookup_append_of_none _ _ _ hid]
                      simp [olookup]
                    · exact generate_operation_id_ne_empty method p hgood.1
                | tail _ h3 => exact hgr mo2 h3
          | some v =>
              rw [hid] at hgood
              cases v with
              | str s =>
                  refine ⟨(method, Json.obj okvs) :: items2r, ?_, ?_⟩
                  · simp only [addIdsItem, Bind.bind, Except.bind, opIdMissing, hid,
                      Option.isNone_some, if_false]
                    rw [hr]
                    simp
                  · intro mo2 h2
                    cases h2 with
                    | head =>
                        exact ⟨okvs, s, rfl, hid, by
                          have := hgood.2
                          simp only [decide_eq_true_eq] at this
                          exact this⟩
                    | tail _ h3 => exact hgr mo2 h3
              | null => simp at hgood
              | bool b2 => simp at hgood
              | num n2 => simp at hgood
              | arr xs => simp at hgood
              | obj kvs => simp at hgood
      | null => simp at hgood
      | bool b2 => simp at hgood
      | num n2 => simp at hgood
      | str s => simp at hgood
      | arr xs => simp at hgood

theorem addIdsPaths_good :
    ∀ ps : List (String × Json), ps.all goodPathItem = true →
      ∃ ps2, addIdsPaths ps = .ok ps2 ∧
        ∀ pv2 ∈ ps2, ∃ items2, pv2.2 = Json.obj items2 ∧
          ∀ mo2 ∈ items2, ∃ d s, mo2.2 = Json.obj d ∧
            olookup d "operationId" = some (Json.str s) ∧ s ≠ "" := by
  intro ps
  induction ps with
  | nil =>
      intro h
      exact ⟨[], rfl, by intro pv2 h2; exact absurd h2 (by simp)⟩
  | cons pv rest ih =>
      intro h
      rw [List.all_cons, Bool.and_eq_true] at h
      obtain ⟨ps2r, hr, hgr⟩ := ih h.2
      obtain ⟨p, piv⟩ := pv
      have hgood := h.1
      unfold goodPathItem at hgood
      cases piv with
      | obj items =>
          obtain ⟨items2, hi, hgi⟩ := addIdsItem_good p items hgood
          refine ⟨(p, Json.obj items2) :: ps2r, ?_, ?_⟩
          · simp only [addIdsPaths, Bind.bind, Except.bind]
            rw [hi, hr]
            simp [pure, Except.pure]
          · intro pv2 h2
            cases h2 with
            | head => exact ⟨items2, rfl, hgi⟩
            | tail _ h3 => exact hgr pv2 h3
      | null => simp at hgood
      | bool b2 => simp at hgood
      | num n2 => simp at hgood
      | str s => simp at hgood
      | arr xs => simp at hgood

theorem collectMissingItems_ok (p : String) :
    ∀ items : List (String × Json), items.all goodOpEntry = true →
      ∃ ms, collectMissingItems p items = .ok ms ∧
        (ms = [] → ∀ mo ∈ items, ∃ d s, mo.2 = Json.obj d ∧
          olookup d "operationId" = some (Json.str s) ∧ s ≠ "") := by
  intro items
  induction items with
  | nil =>
      intro h
      exact ⟨[], rfl, by intro h0 mo h2; exact absurd h2 (by simp)⟩
  | cons mo rest ih =>
      intro h
      rw [List.all_cons, Bool.and_eq_true] at h
      obtain ⟨msr, hr, hgr⟩ := ih h.2
      obtain ⟨method, opv⟩ := mo
      have hgood := h.1
      unfold goodOpEntry at hgood
      cases opv with
      | obj okvs =>
          simp only [Bool.and_eq_true, decide_eq_true_eq] at hgood
          cases hid : olookup okvs "operationId" with
          | none =>
              refine ⟨(pyUpper method ++ " " ++ p) :: msr, ?_, ?_⟩
              · simp only [collectMissingItems, Bind.bind, Except.bind, opIdMissing,
                  hid, Option.isNone_none, if_true]
                rw [hr]
              · intro h0
                exact absurd h0 (by simp)
          | some v =>
              rw [hid] at hgood
              cases v with
              | str s =>
                  refine ⟨msr, ?_, ?_⟩
                  · simp only [collectMissingItems, Bind.bind, Except.bind,
                      opIdMissing, hid, Option.isNone_some, if_false]
                    rw [hr]
                    simp
                  · intro h0 mo2 h2
                    cases h2 with
                    | head =>
                        exact ⟨okvs, s, rfl, hid, by
                          have := hgood.2
                          simp only [decide_eq_true_eq] at this
                          exact this⟩
                    | tail _ h3 => exact hgr h0 mo2 h3
              | null => simp at hgood
              | bool b2 => simp at hgood
              | num n2 => simp at hgood
              | arr xs => simp at hgood
              | obj kvs => simp at hgood
      | null => simp at hgood
      | bool b2 => simp at hgood
      | num n2 => simp at hgood
      | str s => simp at hgood
      | arr xs => simp at hgood

theorem cmFold_ok :
    ∀ ps : List (String × Json), ps.all goodPathItem = true →
      ∃ ms,
        ps.foldr
          (fun pv acc => do
            match pv.2 with
            | .obj items => do
                let here ← collectMissingItems pv.1 items
                let rest ← acc
                pure (here ++ rest)
            | _ => Except.error PyErr.typeError)
          (Except.ok []) = .ok ms ∧
        (ms = [] → ∀ pv ∈ ps, ∀ mo ∈ objFields pv.2, ∃ d s, mo.2 = Json.obj d ∧
          olookup d "operationId" = some (Json.str s) ∧ s ≠ "") := by
  intro ps
  induction ps with
  | nil =>
      intro h
      exact ⟨[], rfl, by intro h0 pv h2; exact absurd h2 (by simp)⟩
  | cons pv rest ih =>
      intro h
      rw [List.all_cons, Bool.and_eq_true] at h
      obtain ⟨msr, hr, hgr⟩ := ih h.2
      obtain ⟨p, piv⟩ := pv
      have hgood := h.1
      unfold goodPathItem at hgood
      cases piv with
      | obj items =>
          obtain ⟨hms, hcmi, hei⟩ := collectMissingItems_ok p items hgood
          refine ⟨hms ++ msr, ?_, ?_⟩
          · rw [List.foldr_cons, hr]
            simp only [Bind.bind, Except.bind]
            rw [hcmi]
            simp [pure, Except.pure]
          · intro h0
            rw [List.append_eq_nil] at h0
            intro pv2 h2
            cases h2 with
            | head =>
                intro mo hmo
                exact hei h0.1 mo (by simpa [objFields] using hmo)
            | tail _ h3 => exact hgr h0.2 pv2 h3
      | null => simp at hgood
      | bool b2 => simp at hgood
      | num n2 => simp at hgood
      | str s => simp at hgood
      | arr xs => simp at hgood

theorem collectMissing_ok (f ps : List (String × Json))
    (hpaths : olookup f "paths" = some (Json.obj ps))
    (hgood : ps.all goodPathItem = true) :
    ∃ ms, collectMissing (Json.obj f) = .ok ms ∧
      (ms = [] → ∀ pv ∈ ps, ∀ mo ∈ objFields pv.2, ∃ d s, mo.2 = Json.obj d ∧
        olookup d "operationId" = some (Json.str s) ∧ s ≠ "") := by
  obtain ⟨ms, hf, he⟩ := cmFold_ok ps hgood
  refine ⟨ms, ?_, he⟩
  simp only [collectMissing, hpaths]
  exact hf

/-- C1 (amended): on a well-shaped document whose present operation ids are
non-empty strings and whose method keys are non-empty, normalization
succeeds and every enumerated operation object carries a non-empty string
`operationId` — completed from the method and path when it was missing.
Uniqueness across the document is not guaranteed (see the counterexample). -/
theorem c1_operation_ids (spec : Json) (f ps : List (String × Json))
    (hspec : spec = Json.obj f) (hpaths : olookup f "paths" = some (Json.obj ps))
    (hgood : ps.all goodPathItem = true) :
    ∃ spec2, normalizeSpec spec = .ok spec2 ∧
      ∀ op ∈ get_operations spec2, ∃ d s, op.details = Json.obj d ∧
        olookup d "operationId" = some (Json.str s) ∧ s ≠ "" := by
  subst hspec
  obtain ⟨ms, hcm, hempty⟩ := collectMissing_ok f ps hpaths hgood
  unfold normalizeSpec
  simp only [Bind.bind, Except.bind]
  rw [hcm]
  cases ms with
  | nil =>
      simp only [List.isEmpty_nil, if_true]
      refine ⟨Json.obj f, rfl, ?_⟩
      intro op hop
      rw [get_operations_eq (Json.obj f) f ps rfl hpaths] at hop
      obtain ⟨pv, hpv, hmo⟩ := List.mem_flatMap.mp hop
      obtain ⟨mo, hmo2, heq⟩ := List.mem_map.mp hmo
      obtain ⟨d, s, hd, hs, hne⟩ := hempty rfl pv hpv mo hmo2
      exact ⟨d, s, by rw [← heq]; exact hd, hs, hne⟩
  | cons m mrest =>
      simp only [List.isEmpty_cons, if_false]
      obtain ⟨ps2, haddp, hgood2⟩ := addIdsPaths_good ps hgood
      have hadd : add_operation_ids (Json.obj f)
          = .ok (Json.obj (oinsert f "paths" (Json.obj ps2))) := by
        simp only [add_operation_ids, hpaths, Bind.bind, Except.bind]
        rw [haddp]
      refine ⟨Json.obj (oinsert f "paths" (Json.obj ps2)), hadd, ?_⟩
      intro op hop
      rw [get_operations_eq _ _ ps2 rfl
        (olookup_oinsert_self f "paths" (Json.obj ps2))] at hop
      obtain ⟨pv2, hpv2, hmo⟩ := List.mem_flatMap.mp hop
      obtain ⟨mo2, hmo2, heq⟩ := List.mem_map.mp hmo
      obtain ⟨items2, hitems, hgi⟩ := hgood2 pv2 hpv2
      rw [hitems] at hmo2
      obtain ⟨d, s, hd, hs, hne⟩ := hgi mo2 (by simpa [objFields] using hmo2)
      exact ⟨d, s, by rw [← heq]; exact hd, hs, hne⟩

/-- Witness for the amended C1 on `collisionDoc`, whose two operations both
lack ids and receive synthesized ones. -/
theorem c1_operation_ids_witness :
    olookup (objFields collisionDoc) "paths"
      = some (Json.obj (objFields (jgetD collisionDoc "paths" Json.null))) ∧
    (objFields (jgetD collisionDoc "paths" Json.null)).all goodPathItem = true ∧
    (∃ spec2, normalizeSpec collisionDoc = .ok spec2 ∧
      ∀ op ∈ get_operations spec2, ∃ d s, op.details = Json.obj d ∧
        olookup d "operationId" = some (Json.str s) ∧ s ≠ "") :=
  ⟨rfl, by decide,
   c1_operation_ids collisionDoc (objFields collisionDoc)
     (objFields (jgetD collisionDoc "paths" Json.null)) rfl rfl (by decide)⟩

/-- C1 (counterexample): normalizing the valid document `collisionDoc`
yields two distinct operations — different paths — both carrying the same
synthesized id `getUsers`, so the document-uniqueness part of the claim
fails. -/
theorem c1_counterexample :
    normalizeSpec collisionDoc = .ok collisionNorm ∧
    collisionOp1 ∈ get_operations collisionNorm ∧
    collisionOp2 ∈ get_operations collisionNorm ∧
    collisionOp1.path ≠ collisionOp2.path ∧
    (∃ d1, collisionOp1.details = Json.obj d1 ∧
      olookup d1 "operationId" = some (Json.str "getUsers")) ∧
    (∃ d2, collisionOp2.details = Json.obj d2 ∧
      olookup d2 "operationId" = some (Json.str "getUsers")) := by
  refine ⟨rfl, ?_, ?_, by decide, ⟨_, rfl, rfl⟩, ⟨_, rfl, rfl⟩⟩
  · have h : get_operations collisionNorm = [collisionOp1, collisionOp2] := rfl
    rw [h]
    exact List.mem_cons_self _ _
  · have h : get_operations collisionNorm = [collisionOp1, collisionOp2] := rfl
    rw [h]
    exact List.mem_cons_of_mem _ (List.mem_cons_self _ _)

/-! Word-splitting lemmas for the operation-id naming rule. -/

theorem splitOnPred_exists (p : Char → Bool) :
    ∀ l : List Char, ∃ w ws, splitOnPred p l = w :: ws := by
  intro l
  induction l with
  | nil => exact ⟨[], [], rfl⟩
  | cons c rest ih =>
      obtain ⟨w, ws, hw⟩ := ih
      by_cases hc : p c
      · exact ⟨[], w :: ws, by simp [splitOnPred, hw, hc]⟩
      · exact ⟨c :: w, ws, by simp [splitOnPred, hw, hc]⟩

theorem splitOnPred_cons_sep (p : Char → Bool) (c : Char) (hc : p c = true)
    (l : List Char) : splitOnPred p (c :: l) = [] :: splitOnPred p l := by
  obtain ⟨w, ws, hw⟩ := splitOnPred_exists p l
  simp [splitOnPred, hw, hc]

theorem splitOnPred_cons_nonsep (p : Char → Bool) (c : Char) (hc : p c = false)
    (l w : List Char) (ws : List (List Char)) (hl : splitOnPred p l = w :: ws) :
    splitOnPred p (c :: l) = (c :: w) :: ws := by
  simp [splitOnPred, hl, hc]

theorem splitOnPred_append_sep (p : Char → Bool) (c : Char) (hc : p c = true) :
    ∀ x : List Char, splitOnPred p (x ++ [c]) = splitOnPred p x ++ [[]] := by
  intro x
  induction x with
  | nil => simp [splitOnPred, hc]
  | cons d rest ih =>
      obtain ⟨w, ws, hw⟩ := splitOnPred_exists p rest
      by_cases hd : p d
      · rw [List.cons_append, splitOnPred_cons_sep p d hd, ih,
          splitOnPred_cons_sep p d hd]
        rfl
      · rw [List.cons_append,
          splitOnPred_cons_nonsep p d (by simp [hd]) _ _ _ (ih.trans (by rw [hw]; rfl)),
          splitOnPred_cons_nonsep p d (by simp [hd]) _ _ _ hw]
        rfl

theorem filterWord_map_slash (l : List Char) :
    (l.map (fun c => if c = '/' then '_' else c)).filter isWordChar
      = (l.filter (fun c => isWordChar c || c = '/')).map
          (fun c => if c = '/' then '_' else c) := by
  induction l with
  | nil => rfl
  | cons c rest ih =>
      by_cases hc : c = '/'
      · subst hc
        simp only [List.map_cons, if_pos rfl, List.filter_cons]
        rw [ih]
        simp [isWordChar]
      · simp only [List.map_cons, if_neg hc, List.filter_cons]
        by_cases hw : isWordChar c
        · rw [ih]
          simp [hw, hc]
        · rw [ih]
          simp [hw, hc]

theorem split_und_map_slash (l : List Char) :
    splitOnPred (fun c => c = '_') (l.map (fun c => if c = '/' then '_' else c))
      = splitOnPred (fun c => c = '/' || c = '_') l := by
  induction l with
  | nil => rfl
  | cons c rest ih =>
      by_cases hc : c = '/'
      · subst hc
        rw [List.map_cons, if_pos rfl,
          splitOnPred_cons_sep _ '_' (by decide), ih,
          splitOnPred_cons_sep (fun c => c = '/' || c = '_') '/' (by decide)]
      · by_cases hu : c = '_'
        · subst hu
          rw [List.map_cons, if_neg hc,
            splitOnPred_cons_sep _ '_' (by decide), ih,
            splitOnPred_cons_sep (fun c => c = '/' || c = '_') '_' (by decide)]
        · obtain ⟨w, ws, hw⟩ := splitOnPred_exists (fun c => c = '/' || c = '_') rest
          rw [List.map_cons, if_neg hc,
            splitOnPred_cons_nonsep _ c (by simp [hu]) _ _ _ (ih.trans hw),
            splitOnPred_cons_nonsep _ c (by simp [hc, hu]) _ _ _ hw]

theorem jcs_dropWhile (y : List Char) :
    ((splitOnPred (fun c => c = '/' || c = '_')
        ((y.dropWhile (fun d => d = '/')).filter
          (fun c => isWordChar c || c = '/'))).map pyCapitalizeList).flatten
      = ((splitOnPred (fun c => c = '/' || c = '_')
          (y.filter (fun c => isWordChar c || c = '/'))).map
            pyCapitalizeList).flatten := by
  induction y with
  | nil => rfl
  | cons c rest ih =>
      by_cases hc : c = '/'
      · subst hc
        rw [List.dropWhile_cons]
        simp only [decide_True, if_true]
        rw [ih, List.filter_cons]
        simp only [isWordChar, decide_True, Bool.or_true, if_true]
        rw [splitOnPred_cons_sep (fun c => c = '/' || c = '_') '/' (by decide)]
        simp [pyCapitalizeList]
      · rw [List.dropWhile_cons]
        simp [hc]

theorem dropTrailing_append (p : Char → Bool) (x : List Char) (c : Char) :
    dropTrailing p (x ++ [c]) = if p c then dropTrailing p x else x ++ [c] := by
  unfold dropTrailing
  rw [List.reverse_append]
  simp only [List.reverse_cons, List.reverse_nil, List.nil_append, List.singleton_append,
    List.dropWhile_cons]
  by_cases hc : p c
  · simp [hc]
  · simp [hc]

theorem jcs_append_slash (x : List Char) :
    ((splitOnPred (fun c => c = '/' || c = '_')
        ((x ++ ['/']).filter (fun c => isWordChar c || c = '/'))).map
          pyCapitalizeList).flatten
      = ((splitOnPred (fun c => c = '/' || c = '_')
          (x.filter (fun c => isWordChar c || c = '/'))).map
            pyCapitalizeList).flatten := by
  rw [List.filter_append]
  have h1 : (['/'] : List Char).filter (fun c => isWordChar c || c = '/') = ['/'] := by
    decide
  rw [h1, splitOnPred_append_sep (fun c => c = '/' || c = '_') '/' (by decide)]
  simp [pyCapitalizeList]

theorem jcs_dropTrailing (y : List Char) :
    ((splitOnPred (fun c => c = '/' || c = '_')
        ((dropTrailing (fun d => d = '/') y).filter
          (fun c => isWordChar c || c = '/'))).map pyCapitalizeList).flatten
      = ((splitOnPred (fun c => c = '/' || c = '_')
          (y.filter (fun c => isWordChar c || c = '/'))).map
            pyCapitalizeList).flatten := by
  induction y using List.reverseRecOn with
  | nil => rfl
  | append_singleton x c ih =>
      by_cases hc : c = '/'
      · subst hc
        rw [dropTrailing_append, if_pos (by decide), ih, jcs_append_slash]
      · rw [dropTrailing_append, if_neg (by simp [hc])]

/-- C6 (amended): the synthesized id equals the lowercased method followed
by the camel-case join — each word capitalized Python-style, first letter
uppercased and the remainder lowercased — of the words obtained by removing
every brace span from the path, keeping only letters, digits, underscores
and slashes, and splitting on both `/` and `_` (underscores act as word
separators, they are not removed); the rule is a pure function of
(method, path), hence deterministic. -/
theorem c6_naming_rule (method path : String) :
    generate_operation_id method path = amendedOperationId method path := by
  unfold generate_operation_id amendedOperationId amendedPathWords
  have hdata : (sanitize_path path).data
      = ((pyStripChar '/' (removeBraceSpansList path.data)).map
          (fun c => if c = '/' then '_' else c)).filter isWordChar := rfl
  rw [hdata, filterWord_map_slash, split_und_map_slash]
  have hstrip : pyStripChar '/' (removeBraceSpansList path.data)
      = dropTrailing (fun d => d = '/')
          ((removeBraceSpansList path.data).dropWhile (fun d => d = '/')) := rfl
  rw [hstrip, jcs_dropTrailing, jcs_dropWhile]

/-- C6 (counterexample): for the path `/user_items` the code yields
`getUserItems` — the underscore acts as a word separator — while the claimed
rule (non-alphanumerics, including underscores, removed; `/`-separated words
capitalized) yields `getUseritems`. -/
theorem c6_counterexample :
    generate_operation_id "get" "/user_items" = "getUserItems" ∧
    claimOperationId "get" "/user_items" = "getUseritems" ∧
    "getUserItems" ≠ "getUseritems" :=
  ⟨by decide, by decide, by decide⟩

/-! Heap lemmas for the frame property of normalization. -/

theorem hlookup_hupdate_ne (h : Heap) (a b : Nat) (o : HObj) (hne : b ≠ a) :
    hlookup (hupdate h a o) b = hlookup h b := by
  induction h with
  | nil => rfl
  | cons ao rest ih =>
      by_cases h2 : ao.1 = a
      · simp only [hupdate, h2, if_true]
        have h4 : a ≠ b := fun h3 => hne h3.symm
        simp [hlookup, h4, h2]
      · simp only [hupdate, h2, if_false]
        simp only [hlookup]
        by_cases h3 : ao.1 = b
        · simp [h3]
        · simp [h3, ih]

theorem hlookup_mem (h : Heap) (a : Nat) (o : HObj) (hl : hlookup h a = some o) :
    (a, o) ∈ h := by
  induction h with
  | nil => simp [hlookup] at hl
  | cons ao rest ih =>
      by_cases h2 : ao.1 = a
      · simp only [hlookup, h2, if_true] at hl
        injection hl with hl2
        have h4 : ao = (a, o) := by
          cases ao with
          | mk x y =>
              simp only at h2 hl2
              rw [h2, hl2]
        rw [h4]
        exact List.mem_cons_self _ _
      · simp only [hlookup, h2, if_false] at hl
        exact List.mem_cons_of_mem _ (ih hl)

theorem closed_refs (h : Heap) (c : Nat) (hcl : heapClosedBelow h c = true)
    (a : Nat) (o : HObj) (hl : hlookup h a = some o) :
    a < c ∧ ∀ kv ∈ o, ∀ b, kv.2 = HVal.ref b → b < c := by
  have hmem := hlookup_mem h a o hl
  have h1 := List.all_eq_true.mp hcl (a, o) hmem
  rw [Bool.and_eq_true] at h1
  refine ⟨by simpa using h1.1, ?_⟩
  intro kv hkv b hb
  have h2 := List.all_eq_true.mp h1.2 kv hkv
  rw [hb] at h2
  simpa using h2

theorem copyFields_extends :
    ∀ fuel : Nat, ∀ flds : HObj, ∀ s : Heap × Nat,
      s.2 ≤ (copyFields fuel s flds).1.2 ∧
        (∀ b, b < s.2 →
          hlookup (copyFields fuel s flds).1.1 b = hlookup s.1 b) := by
  intro fuel
  induction fuel with
  | zero =>
      intro flds
      induction flds with
      | nil => intro s; simp [copyFields]
      | cons kv rest ih =>
          intro s
          obtain ⟨k, v⟩ := kv
          cases v with
          | leaf j =>
              simp only [copyFields]
              exact ⟨(ih s).1, (ih s).2⟩
          | ref a =>
              simp only [copyFields]
              exact ⟨(ih s).1, (ih s).2⟩
  | succ fuel ihf =>
      intro flds
      induction flds with
      | nil => intro s; simp [copyFields]
      | cons kv rest ih =>
          intro s
          obtain ⟨k, v⟩ := kv
          cases v with
          | leaf j =>
              simp only [copyFields]
              exact ⟨(ih s).1, (ih s).2⟩
          | ref a =>
              simp only [copyFields]
              cases hla : hlookup s.1 a with
              | none => exact ⟨(ih s).1, (ih s).2⟩
              | some o =>
                  have h1 := ihf o s
                  set r1 := copyFields fuel s o with hr1
                  set s2 : Heap × Nat := ((r1.1.2, r1.2) :: r1.1.1, r1.1.2 + 1)
                    with hs2
                  have h2 := ih s2
                  constructor
                  · have : s.2 ≤ s2.2 := by
                      rw [hs2]
                      exact Nat.le_succ_of_le h1.1
                    exact this.trans h2.1
                  · intro b hb
                    have hb2 : b < s2.2 := by
                      rw [hs2]
                      exact Nat.lt_succ_of_lt (Nat.lt_of_lt_of_le hb h1.1)
                    rw [h2.2 b hb2]
                    have hbne : b ≠ r1.1.2 := by
                      intro h3
                      rw [h3] at hb
                      exact absurd h1.1 (Nat.not_le_of_lt (Nat.lt_of_le_of_lt (Nat.le_refl _) hb))
                    rw [hs2]
                    simp only [hlookup]
                    rw [if_neg (fun h3 => hbne h3.symm)]
                    exact h1.2 b hb

theorem itemChain_nil (c : Nat) (hh : Heap) (floor ceil : Nat) :
    itemChain c hh floor ceil [] := by
  simp [itemChain]

theorem itemChain_mono (c : Nat) (hh hh2 : Heap) :
    ∀ (l : List (String × HVal)) (floor ceil : Nat),
      (∀ b, floor ≤ b → b < ceil → hlookup hh2 b = hlookup hh b) →
      itemChain c hh floor ceil l → itemChain c hh2 floor ceil l := by
  intro l
  induction l with
  | nil => intro floor ceil hagree hc; exact itemChain_nil c hh2 floor ceil
  | cons pv rest ih =>
      intro floor ceil hagree hc
      simp only [itemChain] at hc ⊢
      obtain ⟨a2, items2, h1, h2, h3, h4, h5, h6⟩ := hc
      refine ⟨a2, items2, h1, h2, h3, (hagree a2 h2 h3).trans h4, h5, ?_⟩
      exact ih (a2 + 1) ceil
        (fun b hb1 hb2 =>
          hagree b (le_trans h2 (le_trans (Nat.le_succ a2) hb1)) hb2) h6

theorem itemChain_ceil_le (c : Nat) (hh : Heap) :
    ∀ (l : List (String × HVal)) (floor ceil ceil2 : Nat), ceil ≤ ceil2 →
      itemChain c hh floor ceil l → itemChain c hh floor ceil2 l := by
  intro l
  induction l with
  | nil => intro floor ceil ceil2 hle hc; exact itemChain_nil c hh floor ceil2
  | cons pv rest ih =>
      intro floor ceil ceil2 hle hc
      simp only [itemChain] at hc ⊢
      obtain ⟨a2, items2, h1, h2, h3, h4, h5, h6⟩ := hc
      exact ⟨a2, items2, h1, h2, Nat.lt_of_lt_of_le h3 hle, h4, h5,
        ih (a2 + 1) ceil ceil2 hle h6⟩

theorem itemChain_floor_le (c : Nat) (hh : Heap) :
    ∀ (l : List (String × HVal)) (floor floor2 ceil : Nat), floor2 ≤ floor →
      itemChain c hh floor ceil l → itemChain c hh floor2 ceil l := by
  intro l
  induction l with
  | nil => intro floor floor2 ceil hle hc; exact itemChain_nil c hh floor2 ceil
  | cons pv rest ih =>
      intro floor floor2 ceil hle hc
      simp only [itemChain] at hc ⊢
      obtain ⟨a2, items2, h1, h2, h3, h4, h5, h6⟩ := hc
      exact ⟨a2, items2, h1, le_trans hle h2, h3, h4, h5, h6⟩

theorem copyOps (c : Nat) (h : Heap) :
    ∀ (items : List (String × HVal)) (s : Heap × Nat),
      c ≤ s.2 →
      (∀ b, b < c → hlookup s.1 b = hlookup h b) →
      (∀ mo ∈ items, ∃ b, mo.2 = HVal.ref b ∧ b < c ∧
        (hlookup h b).isSome = true) →
      c ≤ (copyFields 1 s items).1.2 ∧
      s.2 ≤ (copyFields 1 s items).1.2 ∧
      (∀ b, b < c → hlookup (copyFields 1 s items).1.1 b = hlookup h b) ∧
      (∀ mo2 ∈ (copyFields 1 s items).2, ∃ b2, mo2.2 = HVal.ref b2 ∧
        c ≤ b2 ∧ b2 < (copyFields 1 s items).1.2) := by
  intro items
  induction items with
  | nil =>
      intro s hcs hagree hsh
      simp only [copyFields]
      exact ⟨hcs, Nat.le_refl _, hagree,
        by intro mo2 h2; exact absurd h2 (by simp)⟩
  | cons mo rest ih =>
      intro s hcs hagree hsh
      obtain ⟨m, w⟩ := mo
      obtain ⟨b, hw, hbc, hbsome⟩ := hsh (m, w) (List.mem_cons_self _ _)
      simp only at hw
      subst hw
      obtain ⟨o, hbo⟩ := Option.isSome_iff_exists.mp hbsome
      have hsb : hlookup s.1 b = some o := (hagree b hbc).trans hbo
      have hext := copyFields_extends 0 o s
      set r1 := copyFields 0 s o with hr1
      set s2 : Heap × Nat := ((r1.1.2, r1.2) :: r1.1.1, r1.1.2 + 1) with hs2
      have heq : copyFields 1 s ((m, HVal.ref b) :: rest)
          = ((copyFields 1 s2 rest).1,
             (m, HVal.ref r1.1.2) :: (copyFields 1 s2 rest).2) := by
        simp only [copyFields]
        rw [hsb]
      have hcs2 : c ≤ s2.2 := by
        rw [hs2]
        exact Nat.le_succ_of_le (le_trans hcs hext.1)
      have hagree2 : ∀ b2, b2 < c → hlookup s2.1 b2 = hlookup h b2 := by
        intro b2 hb2
        rw [hs2]
        simp only [hlookup]
        rw [if_neg]
        · exact (hext.2 b2 (Nat.lt_of_lt_of_le hb2 hcs)).trans (hagree b2 hb2)
        · intro h3
          have : b2 < r1.1.2 :=
            Nat.lt_of_lt_of_le (Nat.lt_of_lt_of_le hb2 hcs) hext.1
          rw [h3] at this
          exact Nat.lt_irrefl _ this
      have hrest := ih s2 hcs2 hagree2
        (fun mo2 h2 => hsh mo2 (List.mem_cons_of_mem _ h2))
      rw [heq]
      refine ⟨hrest.1, ?_, hrest.2.2.1, ?_⟩
      · have h1 : s.2 ≤ s2.2 := by
          rw [hs2]
          exact Nat.le_succ_of_le hext.1
        exact le_trans h1 hrest.2.1
      · intro mo2 h2
        cases h2 with
        | head =>
            refine ⟨r1.1.2, rfl, le_trans hcs hext.1, ?_⟩
            have h1 : r1.1.2 < s2.2 := by
              rw [hs2]
              exact Nat.lt_succ_self _
            exact Nat.lt_of_lt_of_le h1 hrest.2.1
        | tail _ h3 => exact hrest.2.2.2 mo2 h3

theorem copyPathItems (c : Nat) (h : Heap) (hcl : heapClosedBelow h c = true) :
    ∀ (po : List (String × HVal)) (s : Heap × Nat),
      c ≤ s.2 →
      (∀ b, b < c → hlookup s.1 b = hlookup h b) →
      (∀ pv ∈ po, pathItemShaped h pv = true) →
      c ≤ (copyFields 2 s po).1.2 ∧
      s.2 ≤ (copyFields 2 s po).1.2 ∧
      (∀ b, b < c → hlookup (copyFields 2 s po).1.1 b = hlookup h b) ∧
      itemChain c (copyFields 2 s po).1.1 s.2 (copyFields 2 s po).1.2
        (copyFields 2 s po).2 := by
  intro po
  induction po with
  | nil =>
      intro s hcs hagree hsh
      simp only [copyFields]
      exact ⟨hcs, Nat.le_refl _, hagree, itemChain_nil c s.1 s.2 s.2⟩
  | cons pv rest ih =>
      intro s hcs hagree hsh
      obtain ⟨p, w⟩ := pv
      have hshp := hsh (p, w) (List.mem_cons_self _ _)
      unfold pathItemShaped at hshp
      cases w with
      | leaf j => simp at hshp
      | ref a =>
          simp only at hshp
          cases hla : hlookup h a with
          | none => rw [hla] at hshp; simp at hshp
          | some items =>
              rw [hla] at hshp
              have hclr := closed_refs h c hcl a items hla
              have hsa : hlookup s.1 a = some items :=
                (hagree a hclr.1).trans hla
              have hops : ∀ mo ∈ items, ∃ b, mo.2 = HVal.ref b ∧ b < c ∧
                  (hlookup h b).isSome = true := by
                intro mo hmo
                have h2 := List.all_eq_true.mp hshp mo hmo
                unfold opEntryShaped at h2
                cases hw : mo.2 with
                | leaf j => rw [hw] at h2; simp at h2
                | ref b =>
                    rw [hw] at h2
                    exact ⟨b, rfl, hclr.2 mo hmo b hw, by simpa using h2⟩
              have hcops := copyOps c h items s hcs hagree hops
              set r1 := copyFields 1 s items with hr1
              set s2 : Heap × Nat := ((r1.1.2, r1.2) :: r1.1.1, r1.1.2 + 1)
                with hs2
              have heq : copyFields 2 s ((p, HVal.ref a) :: rest)
                  = ((copyFields 2 s2 rest).1,
                     (p, HVal.ref r1.1.2) :: (copyFields 2 s2 rest).2) := by
                simp only [copyFields]
                rw [hsa]
              have hcs2 : c ≤ s2.2 := by
                rw [hs2]
                exact Nat.le_succ_of_le hcops.1
              have hagree2 : ∀ b2, b2 < c → hlookup s2.1 b2 = hlookup h b2 := by
                intro b2 hb2
                rw [hs2]
                simp only [hlookup]
                rw [if_neg]
                · exact hcops.2.2.1 b2 hb2
                · intro h3
                  have h4 : b2 < r1.1.2 := Nat.lt_of_lt_of_le hb2 hcops.1
                  rw [h3] at h4
                  exact Nat.lt_irrefl _ h4
              have hrest := ih s2 hcs2 hagree2
                (fun pv2 h2 => hsh pv2 (List.mem_cons_of_mem _ h2))
              have hext2 := copyFields_extends 2 rest s2
              rw [heq]
              have hs2le : s.2 ≤ s2.2 := by
                rw [hs2]
                exact Nat.le_succ_of_le hcops.2.1
              refine ⟨hrest.1, le_trans hs2le hrest.2.1, hrest.2.2.1, ?_⟩
              simp only [itemChain]
              refine ⟨r1.1.2, r1.2, rfl, hcops.2.1, ?_, ?_, ?_, ?_⟩
              · have h1 : r1.1.2 < s2.2 := by
                  rw [hs2]
                  exact Nat.lt_succ_self _
                exact Nat.lt_of_lt_of_le h1 hrest.2.1
              · have h1 : hlookup s2.1 r1.1.2 = some r1.2 := by
                  rw [hs2]
                  simp [hlookup]
                rw [← h1]
                apply hext2.2
                rw [hs2]
                exact Nat.lt_succ_self _
              · intro mo2 hmo2
                obtain ⟨b2, hb2, hcb2, hlt⟩ := hcops.2.2.2 mo2 hmo2
                exact ⟨b2, hb2, hcb2, hlt⟩
              · have h1 : s2.2 = r1.1.2 + 1 := by rw [hs2]
                rw [← h1]
                exact hrest.2.2.2

theorem copyRootFields (c : Nat) (h : Heap) (hcl : heapClosedBelow h c = true)
    (pa : Nat) (po : List (String × HVal))
    (hpa : hlookup h pa = some po)
    (hsh : ∀ pv ∈ po, pathItemShaped h pv = true) :
    ∀ (flds : HObj) (s : Heap × Nat),
      c ≤ s.2 →
      (∀ b, b < c → hlookup s.1 b = hlookup h b) →
      olookup flds "paths" = some (HVal.ref pa) →
      c ≤ (copyFields 3 s flds).1.2 ∧
      s.2 ≤ (copyFields 3 s flds).1.2 ∧
      (∀ b, b < c → hlookup (copyFields 3 s flds).1.1 b = hlookup h b) ∧
      ∃ pa2 po2, olookup (copyFields 3 s flds).2 "paths" = some (HVal.ref pa2) ∧
        pa2 < (copyFields 3 s flds).1.2 ∧
        hlookup (copyFields 3 s flds).1.1 pa2 = some po2 ∧
        itemChain c (copyFields 3 s flds).1.1 c (copyFields 3 s flds).1.2 po2 := by
  intro flds
  induction flds with
  | nil => intro s hcs hagree hol; simp [olookup] at hol
  | cons kv rest ih =>
      intro s hcs hagree hol
      obtain ⟨k, v⟩ := kv
      by_cases hk : k = "paths"
      · subst hk
        simp only [olookup, if_pos rfl] at hol
        injection hol with hol2
        subst hol2
        have hclpa := closed_refs h c hcl pa po hpa
        have hsa : hlookup s.1 pa = some po := (hagree pa hclpa.1).trans hpa
        have hcpi := copyPathItems c h hcl po s hcs hagree hsh
        set r1 := copyFields 2 s po with hr1
        set s2 : Heap × Nat := ((r1.1.2, r1.2) :: r1.1.1, r1.1.2 + 1) with hs2
        have heq : copyFields 3 s (("paths", HVal.ref pa) :: rest)
            = ((copyFields 3 s2 rest).1,
               ("paths", HVal.ref r1.1.2) :: (copyFields 3 s2 rest).2) := by
          simp only [copyFields]
          rw [hsa]
        have hext3 := copyFields_extends 3 rest s2
        have hcs2 : c ≤ s2.2 := by
          rw [hs2]
          exact Nat.le_succ_of_le hcpi.1
        rw [heq]
        have hagree2 : ∀ b2, b2 < c → hlookup s2.1 b2 = hlookup h b2 := by
          intro b2 hb2
          rw [hs2]
          simp only [hlookup]
          rw [if_neg]
          · exact hcpi.2.2.1 b2 hb2
          · intro h3
            have h4 : b2 < r1.1.2 := Nat.lt_of_lt_of_le hb2 hcpi.1
            rw [h3] at h4
            exact Nat.lt_irrefl _ h4
        refine ⟨le_trans hcs2 hext3.1, ?_, ?_, ?_⟩
        · have h1 : s.2 ≤ s2.2 := by
            rw [hs2]
            exact Nat.le_succ_of_le hcpi.2.1
          exact le_trans h1 hext3.1
        · intro b hb
          rw [hext3.2 b (Nat.lt_of_lt_of_le hb hcs2)]
          exact hagree2 b hb
        · refine ⟨r1.1.2, r1.2, by simp [olookup], ?_, ?_, ?_⟩
          · have h1 : r1.1.2 < s2.2 := by
              rw [hs2]
              exact Nat.lt_succ_self _
            exact Nat.lt_of_lt_of_le h1 hext3.1
          · have h1 : hlookup s2.1 r1.1.2 = some r1.2 := by
              rw [hs2]
              simp [hlookup]
            rw [← h1]
            apply hext3.2
            rw [hs2]
            exact Nat.lt_succ_self _
          · have hch : itemChain c s2.1 s.2 s2.2 r1.2 := by
              have hch0 := hcpi.2.2.2
              have hmono : itemChain c s2.1 s.2 r1.1.2 r1.2 := by
                apply itemChain_mono c r1.1.1 s2.1 r1.2 s.2 r1.1.2 _ hch0
                intro b hb1 hb2
                rw [hs2]
                simp only [hlookup]
                rw [if_neg]
                · intro h3
                  rw [h3] at hb2
                  exact Nat.lt_irrefl _ hb2
              exact itemChain_ceil_le c s2.1 r1.2 s.2 r1.1.2 s2.2
                (by rw [hs2]; exact Nat.le_succ _) hmono
            have hch2 : itemChain c (copyFields 3 s2 rest).1.1 s.2
                (copyFields 3 s2 rest).1.2 r1.2 := by
              have hm := itemChain_mono c s2.1 (copyFields 3 s2 rest).1.1 r1.2
                s.2 s2.2 (fun b hb1 hb2 => hext3.2 b hb2) hch
              exact itemChain_ceil_le c _ r1.2 s.2 s2.2 _ hext3.1 hm
            exact itemChain_floor_le c _ r1.2 s.2 c _ hcs hch2
      · have hol2 : olookup rest "paths" = some (HVal.ref pa) := by
          simpa [olookup, hk] using hol
        cases v with
        | leaf j =>
            have heq : copyFields 3 s ((k, HVal.leaf j) :: rest)
                = ((copyFields 3 s rest).1,
                   (k, HVal.leaf j) :: (copyFields 3 s rest).2) := by
              simp only [copyFields]
            rw [heq]
            have hrest := ih s hcs hagree hol2
            refine ⟨hrest.1, hrest.2.1, hrest.2.2.1, ?_⟩
            obtain ⟨pa2, po2, h1, h2, h3, h4⟩ := hrest.2.2.2
            exact ⟨pa2, po2, by simpa [olookup, hk] using h1, h2, h3, h4⟩
        | ref a =>
            cases hsa : hlookup s.1 a with
            | none =>
                have heq : copyFields 3 s ((k, HVal.ref a) :: rest)
                    = ((copyFields 3 s rest).1,
                       (k, HVal.ref a) :: (copyFields 3 s rest).2) := by
                  simp only [copyFields]
                  rw [hsa]
                rw [heq]
                have hrest := ih s hcs hagree hol2
                refine ⟨hrest.1, hrest.2.1, hrest.2.2.1, ?_⟩
                obtain ⟨pa2, po2, h1, h2, h3, h4⟩ := hrest.2.2.2
                exact ⟨pa2, po2, by simpa [olookup, hk] using h1, h2, h3, h4⟩
            | some o =>
                have hext2 := copyFields_extends 2 o s
                set r1 := copyFields 2 s o with hr1
                set s2 : Heap × Nat := ((r1.1.2, r1.2) :: r1.1.1, r1.1.2 + 1)
                  with hs2
                have heq : copyFields 3 s ((k, HVal.ref a) :: rest)
                    = ((copyFields 3 s2 rest).1,
                       (k, HVal.ref r1.1.2) :: (copyFields 3 s2 rest).2) := by
                  simp only [copyFields]
                  rw [hsa]
                rw [heq]
                have hcs2 : c ≤ s2.2 := by
                  rw [hs2]
                  exact Nat.le_succ_of_le (le_trans hcs hext2.1)
                have hagree2 : ∀ b2, b2 < c → hlookup s2.1 b2 = hlookup h b2 := by
                  intro b2 hb2
                  rw [hs2]
                  simp only [hlookup]
                  rw [if_neg]
                  · exact (hext2.2 b2 (Nat.lt_of_lt_of_le hb2 hcs)).trans
                      (hagree b2 hb2)
                  · intro h3
                    have h4 : b2 < r1.1.2 :=
                      Nat.lt_of_lt_of_le (Nat.lt_of_lt_of_le hb2 hcs) hext2.1
                    rw [h3] at h4
                    exact Nat.lt_irrefl _ h4
                have hrest := ih s2 hcs2 hagree2 hol2
                refine ⟨hrest.1, ?_, hrest.2.2.1, ?_⟩
                · have h1 : s.2 ≤ s2.2 := by
                    rw [hs2]
                    exact Nat.le_succ_of_le hext2.1
                  exact le_trans h1 hrest.2.1
                · obtain ⟨pa2, po2, h1, h2, h3, h4⟩ := hrest.2.2.2
                  exact ⟨pa2, po2, by simpa [olookup, hk] using h1, h2, h3, h4⟩

theorem copyRoot_spine (c : Nat) (h : Heap) (root : Nat)
    (hcl : heapClosedBelow h c = true)
    (hws : wellShapedHeap h root = true) :
    c ≤ (copyRoot (h, c) root).1.2 ∧
    (∀ b, b < c → hlookup (copyRoot (h, c) root).1.1 b = hlookup h b) ∧
    ∃ r2 ro2 pa2 po2,
      (copyRoot (h, c) root).2 = HVal.ref r2 ∧
      hlookup (copyRoot (h, c) root).1.1 r2 = some ro2 ∧
      olookup ro2 "paths" = some (HVal.ref pa2) ∧
      hlookup (copyRoot (h, c) root).1.1 pa2 = some po2 ∧
      itemChain c (copyRoot (h, c) root).1.1 c (copyRoot (h, c) root).1.2 po2 := by
  unfold wellShapedHeap at hws
  cases hroot : hlookup h root with
  | none => rw [hroot] at hws; simp at hws
  | some ro =>
      rw [hroot] at hws
      simp only at hws
      cases hpv : olookup ro "paths" with
      | none => rw [hpv] at hws; simp at hws
      | some pathsv =>
          rw [hpv] at hws
          cases pathsv with
          | leaf j => simp at hws
          | ref pa =>
              simp only at hws
              cases hpa : hlookup h pa with
              | none => rw [hpa] at hws; simp at hws
              | some po =>
                  rw [hpa] at hws
                  simp only at hws
                  have hsh : ∀ pv ∈ po, pathItemShaped h pv = true :=
                    List.all_eq_true.mp hws
                  have hcr := copyRootFields c h hcl pa po hpa hsh ro (h, c)
                    (Nat.le_refl c) (fun b hb => rfl) hpv
                  set r := copyFields 3 (h, c) ro with hr
                  have heq : copyRoot (h, c) root
                      = (((r.1.2, r.2) :: r.1.1, r.1.2 + 1), HVal.ref r.1.2) := by
                    simp only [copyRoot]
                    rw [hroot]
                  rw [heq]
                  obtain ⟨pa2, po2, h1, h2, h3, h4⟩ := hcr.2.2.2
                  refine ⟨Nat.le_succ_of_le hcr.1, ?_,
                    r.1.2, r.2, pa2, po2, rfl, by simp [hlookup], h1, ?_, ?_⟩
                  · intro b hb
                    simp only [hlookup]
                    rw [if_neg]
                    · exact hcr.2.2.1 b hb
                    · intro h5
                      have h6 : b < r.1.2 := Nat.lt_of_lt_of_le hb hcr.1
                      rw [h5] at h6
                      exact Nat.lt_irrefl _ h6
                  · simp only [hlookup]
                    rw [if_neg]
                    · exact h3
                    · intro h5
                      rw [h5] at h2
                      exact Nat.lt_irrefl _ h2
                  · have hm : itemChain c ((r.1.2, r.2) :: r.1.1) c r.1.2 po2 := by
                      apply itemChain_mono c r.1.1 _ po2 c r.1.2 _ h4
                      intro b hb1 hb2
                      simp only [hlookup]
                      rw [if_neg]
                      intro h5
                      rw [h5] at hb2
                      exact Nat.lt_irrefl _ hb2
                    exact itemChain_ceil_le c _ po2 c r.1.2 (r.1.2 + 1)
                      (Nat.le_succ _) hm

theorem heapAddOpIdsItems_frame (c : Nat) (path : String) :
    ∀ (items2 : List (String × HVal)) (hh : Heap) (a2 : Nat),
      opsBelow c a2 items2 →
      ∀ b, (b < c ∨ a2 ≤ b) →
        hlookup (heapAddOpIdsItems path items2 hh) b = hlookup hh b := by
  intro items2
  induction items2 with
  | nil => intro hh a2 hops b hb; rfl
  | cons mo rest ih =>
      intro hh a2 hops b hb
      obtain ⟨m, w⟩ := mo
      obtain ⟨b2, hw, hcb2, hba⟩ := hops (m, w) (List.mem_cons_self _ _)
      simp only at hw
      subst hw
      have hstep : ∀ b3, (b3 < c ∨ a2 ≤ b3) →
          hlookup (heapAddOpId hh path m (HVal.ref b2)) b3 = hlookup hh b3 := by
        intro b3 hb3
        have heq0 : heapAddOpId hh path m (HVal.ref b2)
            = (match hlookup hh b2 with
               | some ob =>
                   if (olookup ob "operationId").isSome then hh
                   else hupdate hh b2 (ob ++ [("operationId",
                     HVal.leaf (Json.str (generate_operation_id m path)))])
               | none => hh) := rfl
        rw [heq0]
        cases hob : hlookup hh b2 with
        | none => rfl
        | some ob =>
            by_cases hid : (olookup ob "operationId").isSome
            · simp [hid]
            · simp only [hid, if_false]
              have hne : b3 ≠ b2 := by
                intro h3
                cases hb3 with
                | inl h4 => rw [h3] at h4; exact Nat.not_le_of_lt h4 hcb2
                | inr h4 =>
                    rw [h3] at h4
                    exact Nat.not_le_of_lt hba h4
              exact hlookup_hupdate_ne hh b2 b3 _ hne
      have hrest := ih (heapAddOpId hh path m (HVal.ref b2)) a2
        (fun mo2 h2 => hops mo2 (List.mem_cons_of_mem _ h2)) b hb
      unfold heapAddOpIdsItems
      rw [hrest, hstep b hb]

theorem heapAddOpIdsPaths_frame (c : Nat) :
    ∀ (po2 : List (String × HVal)) (hh : Heap) (floor ceil : Nat),
      itemChain c hh floor ceil po2 →
      ∀ b, b < c → hlookup (heapAddOpIdsPaths po2 hh) b = hlookup hh b := by
  intro po2
  induction po2 with
  | nil => intro hh floor ceil hch b hb; rfl
  | cons pv rest ih =>
      intro hh floor ceil hch b hb
      obtain ⟨p, w⟩ := pv
      simp only [itemChain] at hch
      obtain ⟨a2, items2, hw, hfl, hceil, hla, hops, hrest⟩ := hch
      have hw2 : w = HVal.ref a2 := hw
      subst hw2
      have heq0 : heapAddOpIdsPaths ((p, HVal.ref a2) :: rest) hh
          = heapAddOpIdsPaths rest
              (match hlookup hh a2 with
               | some items => heapAddOpIdsItems p items hh
               | none => hh) := rfl
      have heq : heapAddOpIdsPaths ((p, HVal.ref a2) :: rest) hh
          = heapAddOpIdsPaths rest (heapAddOpIdsItems p items2 hh) := by
        rw [heq0, hla]
      rw [heq]
      have hstep := heapAddOpIdsItems_frame c p items2 hh a2 hops
      have hch2 : itemChain c (heapAddOpIdsItems p items2 hh) (a2 + 1) ceil rest := by
        apply itemChain_mono c hh _ rest (a2 + 1) ceil _ hrest
        intro b2 hb1 hb2
        exact hstep b2 (Or.inr (Nat.le_of_succ_le hb1))
      rw [ih (heapAddOpIdsItems p items2 hh) (a2 + 1) ceil hch2 b hb]
      exact hstep b (Or.inl hb)

theorem readFields_agree (c : Nat) (h h2 : Heap)
    (hcl : heapClosedBelow h c = true)
    (hagree : ∀ b, b < c → hlookup h2 b = hlookup h b) :
    ∀ fuel : Nat, ∀ o : HObj,
      (∀ kv ∈ o, ∀ b, kv.2 = HVal.ref b → b < c) →
      readFields fuel h2 o = readFields fuel h o := by
  intro fuel
  induction fuel with
  | zero =>
      intro o
      induction o with
      | nil => intro hr; simp [readFields]
      | cons kv rest ihl =>
          intro hr
          obtain ⟨k, v⟩ := kv
          have hrest := ihl (fun kv2 h2 => hr kv2 (List.mem_cons_of_mem _ h2))
          cases v with
          | leaf j => simp only [readFields]; rw [hrest]
          | ref a => simp only [readFields]; rw [hrest]
  | succ fuel ihf =>
      intro o
      induction o with
      | nil => intro hr; simp [readFields]
      | cons kv rest ihl =>
          intro hr
          obtain ⟨k, v⟩ := kv
          have hrest := ihl (fun kv2 h2 => hr kv2 (List.mem_cons_of_mem _ h2))
          cases v with
          | leaf j => simp only [readFields]; rw [hrest]
          | ref a =>
              have hac : a < c := hr (k, HVal.ref a) (List.mem_cons_self _ _) a rfl
              simp only [readFields]
              rw [hrest, hagree a hac]
              cases hla : hlookup h a with
              | none => rfl
              | some o2 =>
                  have hcr := closed_refs h c hcl a o2 hla
                  exact congrArg
                    (fun x => (k, Json.obj x) :: readFields (fuel + 1) h rest)
                    (ihf o2 hcr.2)

theorem heapAddOperationIds_eq (hh : Heap) (r2 pa2 : Nat) (ro2 po2 : HObj)
    (h1 : hlookup hh r2 = some ro2)
    (h2 : olookup ro2 "paths" = some (HVal.ref pa2))
    (h3 : hlookup hh pa2 = some po2) :
    heapAddOperationIds hh (HVal.ref r2) = heapAddOpIdsPaths po2 hh := by
  unfold heapAddOperationIds
  simp only [h1, h2, h3]

/-- C3 (confirmed): the `__init__` pipeline — fresh copy of the raw document
by reference resolution, then the conditional in-place `operationId`
completion — never writes into the caller's raw input: the document value
readable from the raw root is unchanged at every depth. -/
theorem c3_raw_input_preserved (h : Heap) (c root : Nat)
    (hclosed : heapClosedBelow h c = true)
    (hshape : wellShapedHeap h root = true) :
    ∀ fuel, readRoot (heapNormalize h c root).1 root fuel
      = readRoot h root fuel := by
  obtain ⟨hcc, hagree1, r2, ro2, pa2, po2, hrv, hr2, hpaths2, hpa2, hchain⟩ :=
    copyRoot_spine c h root hclosed hshape
  have hfinal : ∀ b, b < c →
      hlookup (heapNormalize h c root).1 b = hlookup h b := by
    intro b hb
    unfold heapNormalize
    by_cases hmiss : heapAnyMissing (copyRoot (h, c) root).1.1
        (copyRoot (h, c) root).2
    · simp only [hmiss, if_true]
      rw [hrv, heapAddOperationIds_eq (copyRoot (h, c) root).1.1 r2 pa2 ro2 po2
        hr2 hpaths2 hpa2]
      rw [heapAddOpIdsPaths_frame c po2 (copyRoot (h, c) root).1.1 c
        (copyRoot (h, c) root).1.2 hchain b hb]
      exact hagree1 b hb
    · simp only [hmiss, if_false]
      exact hagree1 b hb
  intro fuel
  have hroot_lt : root < c := by
    unfold wellShapedHeap at hshape
    cases hroot : hlookup h root with
    | none => rw [hroot] at hshape; simp at hshape
    | some ro => exact (closed_refs h c hclosed root ro hroot).1
  unfold readRoot
  rw [hfinal root hroot_lt]
  cases hroot : hlookup h root with
  | none => rfl
  | some ro =>
      have hcr := closed_refs h c hclosed root ro hroot
      exact congrArg Json.obj
        (readFields_agree c h (heapNormalize h c root).1 hclosed hfinal fuel
          ro hcr.2)

/-- Witness for C3 on a concrete four-object heap holding a raw document
whose single operation lacks an id. -/
theorem c3_raw_input_preserved_witness :
    heapClosedBelow rawHeap 4 = true ∧
    wellShapedHeap rawHeap 0 = true ∧
    (∀ fuel, readRoot (heapNormalize rawHeap 4 0).1 0 fuel
      = readRoot rawHeap 0 fuel) :=
  ⟨rfl, rfl, c3_raw_input_preserved rawHeap 4 0 rfl rfl⟩
